import Mathlib

/-!
Verification development for the LLmProxy streaming tool-call transformer
(`app/streaming_tool_transformer.py`) and streaming response aggregator
(`app/proxy.py`).

The Python values flowing through the proxy are parsed JSON, so they are
modelled by the inductive type `PyVal` below (dicts as insertion-ordered
association lists, which is how Python dicts behave; `deepcopy` is the
identity on immutable Lean values).  Strings are modelled as `List Char`.
Python's `re` module is Unicode-aware for `\w`, `\d` and `str.strip`;
the model uses the ASCII subset of those character classes, which covers
every string class the transformer's grammar is designed for.  Code paths
on which Python would raise `TypeError` (for example a truthy non-string
`reasoning_content`) are modelled by total functions returning a junk
value; the theorems below restrict their inputs to the well-formed region
on which the model agrees with the Python code.
-/

set_option maxRecDepth 100000

/-- Model of a parsed-JSON Python value (the chunks handled by the proxy). -/
inductive PyVal where
  | none : PyVal
  | bool (b : Bool) : PyVal
  | int (n : Int) : PyVal
  | str (s : List Char) : PyVal
  | list (xs : List PyVal) : PyVal
  | dict (entries : List (List Char × PyVal)) : PyVal

/-- Python truthiness (`bool(v)`): `None`, `False`, `0`, `""`, `[]`, `{}` are falsy. -/
def pyTruthy : PyVal → Bool
  | PyVal.none => false
  | PyVal.bool b => b
  | PyVal.int n => n != 0
  | PyVal.str s => !s.isEmpty
  | PyVal.list xs => !xs.isEmpty
  | PyVal.dict es => !es.isEmpty

/-- Lookup in an association list (Python dict keys are unique, first hit wins). -/
def lookupEntries : List (List Char × PyVal) → List Char → Option PyVal
  | [], _ => Option.none
  | (k', v) :: t, k => if k' == k then some v else lookupEntries t k

/-- `d.get(k)` on a dict; `none` for a missing key or a non-dict value. -/
def pyDictGet : PyVal → List Char → Option PyVal
  | PyVal.dict es, k => lookupEntries es k
  | _, _ => Option.none

/-- `k in d` for a dict (`False` on lists/strings lacking it; `in` on an
`int` raises in Python, a case excluded by the well-formedness hypotheses). -/
def pyDictHasKey (v : PyVal) (k : List Char) : Bool := (pyDictGet v k).isSome

/-- `d.get(k, default)`. -/
def pyDictGetD (v : PyVal) (k : List Char) (d : PyVal) : PyVal := (pyDictGet v k).getD d

/-- `d[k] = v`: replace the first binding in place, else append (Python
dict insertion-order semantics). -/
def setEntries : List (List Char × PyVal) → List Char → PyVal → List (List Char × PyVal)
  | [], k, v => [(k, v)]
  | (k', v') :: t, k, v => if k' == k then (k', v) :: t else (k', v') :: setEntries t k v

/-- `d[k] = v` on a dict (assignment on a non-dict raises in Python;
that case never arises on the modelled paths). -/
def pyDictSet : PyVal → List Char → PyVal → PyVal
  | PyVal.dict es, k, v => PyVal.dict (setEntries es k v)
  | x, _, _ => x

/-- The elements of a list value (iterating a non-list raises in Python;
excluded by the well-formedness hypotheses). -/
def pyAsList : PyVal → List PyVal
  | PyVal.list xs => xs
  | _ => []

/-- The characters of a string value.  A truthy non-string reaching the
regex routines raises `TypeError` in Python; the theorems exclude it. -/
def pyValToStr : PyVal → List Char
  | PyVal.str s => s
  | _ => []

/-- `v or ""` (used for optional string fields). -/
def pyOrEmptyStr (v : PyVal) : List Char := if pyTruthy v then pyValToStr v else []

/-- `a or b` on values. -/
def pyOrD (v d : PyVal) : PyVal := if pyTruthy v then v else d

/-- String concatenation of two string values (`+` on non-strings raises
in Python; excluded by the well-formedness hypotheses). -/
def pyStrConcat (a b : PyVal) : PyVal :=
  match a, b with
  | PyVal.str x, PyVal.str y => PyVal.str (x ++ y)
  | _, _ => PyVal.none

/-- Python `==` restricted to the scalar values that the aggregator
compares (`tool_call.get('index')`); deep container equality is never
exercised by the modelled inputs. -/
def pyScalarEq (a b : PyVal) : Bool :=
  match a, b with
  | PyVal.int x, PyVal.int y => x == y
  | PyVal.str x, PyVal.str y => x == y
  | PyVal.bool x, PyVal.bool y => x == y
  | PyVal.none, PyVal.none => true
  | _, _ => false

/-! ### String utilities shared by the marker scanner -/

/-- `pat in hay` (Python substring containment). -/
def strContains : List Char → List Char → Bool
  | hay, pat =>
    if pat.isPrefixOf hay then true
    else match hay with
      | [] => false
      | _ :: t => strContains t pat

/-- Helper for `str.find`: scan with a running index. -/
def pyFindGo (pat : List Char) : List Char → Nat → Option Nat
  | hay, i =>
    if pat.isPrefixOf hay then some i
    else match hay with
      | [] => Option.none
      | _ :: t => pyFindGo pat t (i + 1)

/-- `hay.find(pat)`, with `-1` modelled as `none`. -/
def pyFind (hay pat : List Char) : Option Nat := pyFindGo pat hay 0

/-- `str.isspace()` — the character class stripped by `str.strip()`:
CPython's Unicode whitespace table (`Py_UNICODE_ISSPACE`): `\t\n\v\f\r`,
the separators `U+001C`–`U+001F`, the space, `U+0085` (NEL), `U+00A0`
(NBSP), `U+1680` (Ogham space mark), the `U+2000`–`U+200A` spaces, the
line and paragraph separators `U+2028`/`U+2029`, `U+202F`, `U+205F` and
`U+3000` (ideographic space). -/
def pyIsSpace (c : Char) : Bool :=
  (decide (9 ≤ c.toNat) && decide (c.toNat ≤ 13)) ||
  (decide (28 ≤ c.toNat) && decide (c.toNat ≤ 32)) ||
  c.toNat == 0x85 || c.toNat == 0xA0 || c.toNat == 0x1680 ||
  (decide (0x2000 ≤ c.toNat) && decide (c.toNat ≤ 0x200A)) ||
  c.toNat == 0x2028 || c.toNat == 0x2029 || c.toNat == 0x202F ||
  c.toNat == 0x205F || c.toNat == 0x3000

/-- `s.strip()`. -/
def pyStrip (s : List Char) : List Char :=
  ((s.dropWhile pyIsSpace).reverse.dropWhile pyIsSpace).reverse

/-- One left-to-right pass of `s.replace(pat, "")`: drop each non-overlapping
occurrence of `pat` (the fuel bounds the recursion; it is never exhausted
when it starts at `s.length + 1`). -/
def pyRemoveAllGo (pat : List Char) : Nat → List Char → List Char
  | 0, s => s
  | fuel + 1, s =>
    if !pat.isEmpty && pat.isPrefixOf s then pyRemoveAllGo pat fuel (s.drop pat.length)
    else match s with
      | [] => []
      | c :: t => c :: pyRemoveAllGo pat fuel t

/-- `s.replace(pat, "")`. -/
def pyRemoveAll (s pat : List Char) : List Char := pyRemoveAllGo pat (s.length + 1) s

/-! ### Marker scanner (`control_pattern`, `marker_pattern`, `function_pattern`) -/

def mSectionBegin : List Char := ("<|tool_calls_section_begin|>").toList
def mCallBegin : List Char := ("<|tool_call_begin|>").toList
def mArgBegin : List Char := ("<|tool_call_argument_begin|>").toList
def mCallEnd : List Char := ("<|tool_call_end|>").toList
def mSectionEnd : List Char := ("<|tool_calls_section_end|>").toList

/-- The five explicit ASCII markers, in the order of the regex alternation
(also the order of the tuple in `_strip_argument_markers`). -/
def markerList : List (List Char) := [mSectionBegin, mCallBegin, mArgBegin, mCallEnd, mSectionEnd]

/-- Membership in the Unicode control ranges of `control_pattern`
(`[ༀ-࿿᠀-᢯]`). -/
def isCtrlChar (c : Char) : Bool :=
  (0xF00 ≤ c.toNat && c.toNat ≤ 0xFFF) || (0x1800 ≤ c.toNat && c.toNat ≤ 0x18AF)

/-- Which alternative of `marker_pattern` matches at the head of `s`
(no marker is a prefix of another, so at most one can match). -/
def markerHeadMatch (s : List Char) : Option Nat :=
  if mSectionBegin.isPrefixOf s then some mSectionBegin.length
  else if mCallBegin.isPrefixOf s then some mCallBegin.length
  else if mArgBegin.isPrefixOf s then some mArgBegin.length
  else if mCallEnd.isPrefixOf s then some mCallEnd.length
  else if mSectionEnd.isPrefixOf s then some mSectionEnd.length
  else Option.none

/-- `marker_pattern.search(s)`: does any position start a marker? -/
def markerSearch : List Char → Bool
  | [] => (markerHeadMatch []).isSome
  | c :: t => if (markerHeadMatch (c :: t)).isSome then true else markerSearch t

/-- `marker_pattern.sub("", s)`: remove leftmost non-overlapping marker
occurrences (fuel never exhausted when it starts at `s.length + 1`). -/
def markerSubGo : Nat → List Char → List Char
  | 0, s => s
  | fuel + 1, s =>
    match markerHeadMatch s with
    | some n => markerSubGo fuel (s.drop n)
    | Option.none =>
      match s with
      | [] => []
      | c :: t => c :: markerSubGo fuel t

def markerSub (s : List Char) : List Char := markerSubGo (s.length + 1) s

/-- `_strip_markers_and_detect(text, strip_whitespace)`. -/
def strip_markers_and_detect (text : List Char) (strip_whitespace : Bool) : List Char × Bool :=
  if text.isEmpty then ([], false)
  else
    let has_control := text.any isCtrlChar
    let no_control := text.filter (fun c => !isCtrlChar c)
    let has_ascii_marker := markerSearch no_control
    let cleaned := markerSub no_control
    let cleaned2 := if strip_whitespace then pyStrip cleaned else cleaned
    (cleaned2, has_control || has_ascii_marker)

/-- `_strip_argument_markers(text)`: `text.replace(m, "")` for the five
markers in order, preserving every other character. -/
def strip_argument_markers (text : List Char) : List Char :=
  if text.isEmpty then []
  else markerList.foldl (fun t m => pyRemoveAll t m) text

/-- ASCII model of `\w` (Python's regex is Unicode-aware; the transformer's
grammar uses ASCII identifiers). -/
def isWordChar (c : Char) : Bool := c.isAlphanum || c = '_'

def functionsDot : List Char := ("functions.").toList

/-- Attempt of `function_pattern` = `functions\.(\w+):(\d+)` at the head of
`s`.  `\w+` and `\d+` are greedy and followed by a hard delimiter, so the
regex match is the maximal word run, a `:` and the maximal digit run.
Returns `(name, id, suffix after the match)`. -/
def functionMatchAt (s : List Char) : Option (List Char × List Char × List Char) :=
  if functionsDot.isPrefixOf s then
    let s1 := s.drop functionsDot.length
    let nm := s1.takeWhile isWordChar
    if nm.isEmpty then Option.none
    else
      match s1.dropWhile isWordChar with
      | ':' :: s2 =>
        let ds := s2.takeWhile Char.isDigit
        if ds.isEmpty then Option.none
        else some (nm, ds, s2.dropWhile Char.isDigit)
      | _ => Option.none
  else Option.none

/-- `function_pattern.search(s)`: leftmost match wins. -/
def function_search : List Char → Option (List Char × List Char × List Char)
  | [] => Option.none
  | c :: t =>
    match functionMatchAt (c :: t) with
    | some r => some r
    | Option.none => function_search t

/-- `_looks_like_tool_start(text)`. -/
def looks_like_tool_start (text : List Char) : Bool :=
  if text.isEmpty then false
  else if strContains text functionsDot then true
  else (function_search text).isSome

/-! ### `json.loads` validity (used by `_try_parse_json` to confirm a candidate)

Recursive-descent recogniser for the JSON grammar accepted by Python's
`json.loads` with default options: values are objects, arrays, strings
(double-quoted, strict escapes, no raw control characters), numbers,
`true`/`false`/`null`, and the Python extensions `NaN`, `Infinity`,
`-Infinity`.  Only validity matters here, so the recogniser returns the
unconsumed remainder of the input. -/

def jsonWsChar (c : Char) : Bool := c = ' ' || c = '\t' || c = '\n' || c = '\r'

def jskipWs (s : List Char) : List Char := s.dropWhile jsonWsChar

def isHexDig (c : Char) : Bool :=
  c.isDigit || ('a' ≤ c && c ≤ 'f') || ('A' ≤ c && c ≤ 'F')

/-- Body of a JSON string after the opening quote. -/
def jstringRest : List Char → Option (List Char)
  | [] => Option.none
  | c :: r =>
    if c = '"' then some r
    else if c = '\\' then
      match r with
      | [] => Option.none
      | e :: r2 =>
        if e = '"' || e = '\\' || e = '/' || e = 'b' || e = 'f' || e = 'n' || e = 'r' || e = 't' then
          jstringRest r2
        else if e = 'u' then
          match r2 with
          | h1 :: h2 :: h3 :: h4 :: r3 =>
            if isHexDig h1 && isHexDig h2 && isHexDig h3 && isHexDig h4 then jstringRest r3
            else Option.none
          | _ => Option.none
        else Option.none
    else if c.toNat < 0x20 then Option.none
    else jstringRest r

/-- One or more digits, greedily. -/
def jdigitsRun : List Char → Option (List Char)
  | c :: r => if c.isDigit then some (r.dropWhile Char.isDigit) else Option.none
  | [] => Option.none

/-- Optional fraction part `.digits`. -/
def jfracPart : List Char → Option (List Char)
  | '.' :: r => jdigitsRun r
  | s => some s

/-- Optional exponent part `[eE][+-]?digits`. -/
def jexpPart : List Char → Option (List Char)
  | [] => some []
  | c :: r =>
    if c = 'e' || c = 'E' then
      match r with
      | [] => Option.none
      | s :: r2 => if s = '+' || s = '-' then jdigitsRun r2 else jdigitsRun (s :: r2)
    else some (c :: r)

/-- Number after an optional leading `-`: `0|[1-9]\d*` then fraction and
exponent (the grammar of Python's `NUMBER_RE`). -/
def jnumberRest : List Char → Option (List Char)
  | '0' :: r => (jfracPart r).bind jexpPart
  | c :: r => if c.isDigit then (jfracPart (r.dropWhile Char.isDigit)).bind jexpPart else Option.none
  | [] => Option.none

/-- Parsing modes: a value, the members of an object after its `{` (first
key onward), the items of an array after its `[` (first item onward). -/
inductive JMode where
  | val : JMode
  | members : JMode
  | items : JMode

/-- Fuel-indexed JSON recogniser (structural in the fuel so that it
reduces definitionally; `json_loads_ok` supplies ample fuel). -/
def jparse : Nat → JMode → List Char → Option (List Char)
  | 0, _, _ => Option.none
  | fuel + 1, JMode.val, s =>
    match s with
    | '"' :: r => jstringRest r
    | '{' :: r =>
      (match jskipWs r with
       | '}' :: r2 => some r2
       | r1 => jparse fuel JMode.members r1)
    | '[' :: r =>
      (match jskipWs r with
       | ']' :: r2 => some r2
       | r1 => jparse fuel JMode.items r1)
    | 't' :: 'r' :: 'u' :: 'e' :: r => some r
    | 'f' :: 'a' :: 'l' :: 's' :: 'e' :: r => some r
    | 'n' :: 'u' :: 'l' :: 'l' :: r => some r
    | 'N' :: 'a' :: 'N' :: r => some r
    | 'I' :: 'n' :: 'f' :: 'i' :: 'n' :: 'i' :: 't' :: 'y' :: r => some r
    | '-' :: 'I' :: 'n' :: 'f' :: 'i' :: 'n' :: 'i' :: 't' :: 'y' :: r => some r
    | '-' :: r => jnumberRest r
    | c :: r => if c.isDigit then jnumberRest (c :: r) else Option.none
    | [] => Option.none
  | fuel + 1, JMode.members, s =>
    match s with
    | '"' :: r =>
      (match jstringRest r with
       | Option.none => Option.none
       | some r1 =>
         match jskipWs r1 with
         | ':' :: r2 =>
           (match jparse fuel JMode.val (jskipWs r2) with
            | Option.none => Option.none
            | some r3 =>
              match jskipWs r3 with
              | ',' :: r4 => jparse fuel JMode.members (jskipWs r4)
              | '}' :: r4 => some r4
              | _ => Option.none)
         | _ => Option.none)
    | _ => Option.none
  | fuel + 1, JMode.items, s =>
    match jparse fuel JMode.val s with
    | Option.none => Option.none
    | some r1 =>
      match jskipWs r1 with
      | ',' :: r2 => jparse fuel JMode.items (jskipWs r2)
      | ']' :: r2 => some r2
      | _ => Option.none

/-- `json.loads(s)` succeeds: a single JSON document surrounded only by
whitespace. -/
def json_loads_ok (s : List Char) : Bool :=
  match jparse (4 * s.length + 16) JMode.val (jskipWs s) with
  | some r => (jskipWs r).isEmpty
  | Option.none => false

/-! ### The transformer state (`ParserState`, `ToolCallBuilder`, queue) -/

inductive ParserState where
  | IDLE : ParserState
  | TOOL_CALL_BUILD : ParserState
  | ARGUMENT_BUILD : ParserState
  deriving DecidableEq, BEq

/-- `ToolCallBuilder` of the source: reconstruction buffer plus the
JSON-completeness tracker state. -/
structure ToolCallBuilder where
  buffer : List Char
  tool_name : List Char
  tool_id : List Char
  arguments_buffer : List Char
  brace_depth : Nat
  in_string : Bool
  string_char : Option Char
  escaped : Bool

/-- The builder after `reset()` (also its initial value). -/
def initBuilder : ToolCallBuilder :=
  { buffer := [], tool_name := [], tool_id := [], arguments_buffer := []
    brace_depth := 0, in_string := false, string_char := Option.none, escaped := false }

/-- The mutable state of one `StreamingToolCallTransformer`. -/
structure Transformer where
  state : ParserState
  builder : ToolCallBuilder
  pending_chunks : List PyVal

/-- A freshly constructed transformer. -/
def initTransformer : Transformer :=
  { state := ParserState.IDLE, builder := initBuilder, pending_chunks := [] }

/-- `_reset_state()`: state to IDLE, builder reset, queue cleared. -/
def reset_state (_t : Transformer) : Transformer := initTransformer

def squote : Char := Char.ofNat 39

/-- Character walk of `_try_parse_json` over `cs`, where `full` is the whole
text (for candidate slicing) and `i` the current index.  Mirrors the loop
body: string/escape state first, then quotes, then brace depth, and on a
top-level `}` a `json.loads` confirmation of `full[: i + 1]`. -/
def tpjGo (full : List Char) : ToolCallBuilder → List Char → Nat → Bool × Option (List Char) × ToolCallBuilder
  | b, [], _ => (false, Option.none, b)
  | b, c :: rest, i =>
    if b.in_string then
      if b.escaped then tpjGo full { b with escaped := false } rest (i + 1)
      else if c = '\\' then tpjGo full { b with escaped := true } rest (i + 1)
      else if some c = b.string_char then
        tpjGo full { b with in_string := false, string_char := Option.none } rest (i + 1)
      else tpjGo full b rest (i + 1)
    else
      if c = '"' || c = squote then
        tpjGo full { b with in_string := true, string_char := some c } rest (i + 1)
      else if c = '{' then
        if b.brace_depth = 0 then tpjGo full { b with brace_depth := 1 } rest (i + 1)
        else tpjGo full { b with brace_depth := b.brace_depth + 1 } rest (i + 1)
      else if c = '}' then
        if b.brace_depth > 0 then
          let b2 := { b with brace_depth := b.brace_depth - 1 }
          if b2.brace_depth = 0 then
            let candidate := full.take (i + 1)
            if json_loads_ok candidate then (true, some candidate, b2)
            else tpjGo full b2 rest (i + 1)
          else tpjGo full b2 rest (i + 1)
        else tpjGo full b rest (i + 1)
      else tpjGo full b rest (i + 1)

/-- `_try_parse_json(text)` acting on a builder: returns
`(is_complete, json_string_or_none)` and the advanced tracker state. -/
def try_parse_json (b : ToolCallBuilder) (text : List Char) : Bool × Option (List Char) × ToolCallBuilder :=
  if text.isEmpty then (false, Option.none, b)
  else tpjGo text b text 0

/-! ### Chunk accessors and synthesized chunks -/

def kChoices : List Char := ("choices").toList
def kDelta : List Char := ("delta").toList
def kReasoning : List Char := ("reasoning_content").toList
def kToolCalls : List Char := ("tool_calls").toList
def kContent : List Char := ("content").toList
def kRole : List Char := ("role").toList
def kFunction : List Char := ("function").toList
def kName : List Char := ("name").toList
def kArguments : List Char := ("arguments").toList
def kId : List Char := ("id").toList
def kIndex : List Char := ("index").toList
def kType : List Char := ("type").toList
def kUsage : List Char := ("usage").toList
def kSysFp : List Char := ("system_fingerprint").toList
def kModel : List Char := ("model").toList
def kFinish : List Char := ("finish_reason").toList
def kLogprobs : List Char := ("logprobs").toList
def kMessage : List Char := ("message").toList
def kObject : List Char := ("object").toList
def kCreated : List Char := ("created").toList
def sFunction : List Char := ("function").toList
def sAssistant : List Char := ("assistant").toList
def sUnknown : List Char := ("unknown").toList
def sChatCompletion : List Char := ("chat.completion").toList

/-- `_is_valid_chunk(chunk)`: a dict with a truthy `choices` list whose
first element is a dict containing `delta`. -/
def is_valid_chunk (chunk : PyVal) : Bool :=
  match chunk with
  | PyVal.dict _ =>
    (match pyDictGet chunk kChoices with
     | some (PyVal.list (c0 :: _)) =>
       (match c0 with
        | PyVal.dict _ => pyDictHasKey c0 kDelta
        | _ => false)
     | _ => false)
  | _ => false

/-- `chunk["choices"][0].get("delta", {})` (only called on valid chunks). -/
def chunkDelta (chunk : PyVal) : PyVal :=
  match pyDictGet chunk kChoices with
  | some (PyVal.list (c0 :: _)) => pyDictGetD c0 kDelta (PyVal.dict [])
  | _ => PyVal.dict []

/-- `delta.get("reasoning_content")`. -/
def chunkReasoning (chunk : PyVal) : PyVal := pyDictGetD (chunkDelta chunk) kReasoning PyVal.none

/-- Rebuild a chunk with its first choice transformed (the emitted chunks
are deep copies of the triggering chunk with `choices[0]` edited). -/
def updateFirstChoice (chunk : PyVal) (f : PyVal → PyVal) : PyVal :=
  match pyDictGet chunk kChoices with
  | some (PyVal.list (c0 :: rest)) => pyDictSet chunk kChoices (PyVal.list (f c0 :: rest))
  | _ => chunk

/-- `_clone_chunk_with_reasoning(chunk, reasoning)`. -/
def clone_chunk_with_reasoning (chunk : PyVal) (reasoning : List Char) : PyVal :=
  updateFirstChoice chunk (fun c0 =>
    let d0 := pyDictGetD c0 kDelta (PyVal.dict [])
    let d1 := pyDictSet d0 kReasoning (PyVal.str reasoning)
    let d2 := if pyDictHasKey d1 kToolCalls then pyDictSet d1 kToolCalls PyVal.none else d1
    pyDictSet c0 kDelta d2)

/-- `f"functions.{name}:{id}"`. -/
def toolCallEntryId (nm idd : List Char) : List Char := functionsDot ++ nm ++ ':' :: idd

/-- The delta of the tool-call start chunk. -/
def startDelta (nm idd : List Char) : PyVal :=
  PyVal.dict [(kRole, PyVal.none), (kContent, PyVal.none), (kReasoning, PyVal.none),
    (kToolCalls, PyVal.list [PyVal.dict
      [(kId, PyVal.str (toolCallEntryId nm idd)), (kIndex, PyVal.int 0),
       (kType, PyVal.str sFunction),
       (kFunction, PyVal.dict [(kName, PyVal.str nm), (kArguments, PyVal.str [])])]])]

/-- `_create_tool_call_start_chunk(tool_name, tool_id, original_chunk)`. -/
def create_tool_call_start_chunk (nm idd : List Char) (orig : PyVal) : PyVal :=
  updateFirstChoice orig (fun c0 => pyDictSet c0 kDelta (startDelta nm idd))

/-- The delta of an incremental argument chunk (built inline inside
`_emit_argument_delta`; `function.name` is `None`, arguments carry only
the new segment). -/
def argDelta (nm idd seg : List Char) : PyVal :=
  PyVal.dict [(kRole, PyVal.none), (kContent, PyVal.none), (kReasoning, PyVal.none),
    (kToolCalls, PyVal.list [PyVal.dict
      [(kId, PyVal.str (toolCallEntryId nm idd)), (kIndex, PyVal.int 0),
       (kType, PyVal.str sFunction),
       (kFunction, PyVal.dict [(kName, PyVal.none), (kArguments, PyVal.str seg)])]])]

def mkArgChunk (nm idd seg : List Char) (orig : PyVal) : PyVal :=
  updateFirstChoice orig (fun c0 => pyDictSet c0 kDelta (argDelta nm idd seg))

/-! ### The state handlers -/

/-- The end-marker test of `_emit_argument_delta` on the raw fragment. -/
def hasEndMarkerRaw (raw : List Char) : Bool :=
  strContains raw mCallEnd || strContains raw mSectionEnd

/-- `_emit_argument_delta(raw_text, original_chunk)`. -/
def emit_argument_delta (t : Transformer) (raw_text : List Char) (original_chunk : PyVal) :
    List PyVal × Transformer :=
  if raw_text.isEmpty then ([], t)
  else
    let cleaned_args := strip_argument_markers raw_text
    if cleaned_args.isEmpty then
      if hasEndMarkerRaw raw_text then ([], reset_state t) else ([], t)
    else
      let b1 := { t.builder with arguments_buffer := t.builder.arguments_buffer ++ cleaned_args }
      let new_chunk := mkArgChunk b1.tool_name b1.tool_id cleaned_args original_chunk
      let r := try_parse_json b1 b1.arguments_buffer
      let t2 := { t with builder := r.2.2 }
      if r.1 && (t2.state == ParserState.ARGUMENT_BUILD) then ([new_chunk], reset_state t2)
      else if hasEndMarkerRaw raw_text then ([new_chunk], reset_state t2)
      else ([new_chunk], t2)

/-- `_try_finish_tool_header(chunk_from)` (its `add_to_pending` parameter is
never read by the Python body and is omitted). -/
def try_finish_tool_header (t : Transformer) (chunk_from : PyVal) : List PyVal × Transformer :=
  match function_search t.builder.buffer with
  | Option.none => ([], t)
  | some (nm, idd, remaining) =>
    let t1 := { t with
      builder := { t.builder with tool_name := nm, tool_id := idd, buffer := [] },
      state := ParserState.ARGUMENT_BUILD }
    let start_chunk := create_tool_call_start_chunk nm idd chunk_from
    if remaining.isEmpty then ([start_chunk], t1)
    else
      let r := emit_argument_delta t1 remaining chunk_from
      (start_chunk :: r.1, r.2)

/-- `_process_idle_state(chunk, reasoning_content)`. -/
def process_idle_state (t : Transformer) (chunk : PyVal) (reasoning_content : PyVal) :
    List PyVal × Transformer :=
  if !pyTruthy reasoning_content then ([chunk], t)
  else
    let sm := strip_markers_and_detect (pyValToStr reasoning_content) true
    let cleaned := sm.1
    let has_marker := sm.2
    let looks_like_header := looks_like_tool_start cleaned
    if !has_marker && !looks_like_header then ([chunk], t)
    else if has_marker && !strContains cleaned functionsDot then
      let new_chunk := clone_chunk_with_reasoning chunk cleaned
      ([new_chunk],
       { state := ParserState.TOOL_CALL_BUILD, builder := initBuilder, pending_chunks := [] })
    else
      match pyFind cleaned functionsDot with
      | Option.none => ([chunk], t)
      | some header_start =>
        let pfx := cleaned.take header_start
        let header := cleaned.drop header_start
        let prefix_out :=
          if !(pyStrip pfx).isEmpty then [clone_chunk_with_reasoning chunk pfx] else []
        let t1 : Transformer :=
          { state := ParserState.TOOL_CALL_BUILD,
            builder := { initBuilder with buffer := header },
            pending_chunks := [chunk] }
        let r := try_finish_tool_header t1 chunk
        (prefix_out ++ r.1, r.2)

/-- `_process_tool_call_build_state(chunk, reasoning_content)`. -/
def process_tool_call_build_state (t : Transformer) (chunk : PyVal) (reasoning_content : PyVal) :
    List PyVal × Transformer :=
  let sm := strip_markers_and_detect (pyOrEmptyStr reasoning_content) true
  let t1 := { t with
    builder := { t.builder with buffer := t.builder.buffer ++ sm.1 },
    pending_chunks := t.pending_chunks ++ [chunk] }
  try_finish_tool_header t1 chunk

/-- `_process_argument_build_state(chunk, reasoning_content)`. -/
def process_argument_build_state (t : Transformer) (chunk : PyVal) (reasoning_content : PyVal) :
    List PyVal × Transformer :=
  let t1 := { t with pending_chunks := t.pending_chunks ++ [chunk] }
  emit_argument_delta t1 (pyOrEmptyStr reasoning_content) chunk

/-- `process_chunk(chunk)`: the yielded chunks and the successor state. -/
def process_chunk (t : Transformer) (chunk : PyVal) : List PyVal × Transformer :=
  if !is_valid_chunk chunk then
    if t.state == ParserState.IDLE then ([chunk], t)
    else ([], { t with pending_chunks := t.pending_chunks ++ [chunk] })
  else
    let reasoning_content := chunkReasoning chunk
    if t.state == ParserState.IDLE && !pyTruthy reasoning_content then ([chunk], t)
    else
      match t.state with
      | ParserState.IDLE => process_idle_state t chunk reasoning_content
      | ParserState.TOOL_CALL_BUILD => process_tool_call_build_state t chunk reasoning_content
      | ParserState.ARGUMENT_BUILD => process_argument_build_state t chunk reasoning_content

/-- `flush_pending()`: yield the queued chunks (in order), then reset. -/
def flush_pending (t : Transformer) : List PyVal × Transformer :=
  (t.pending_chunks, reset_state t)

/-- Feed a list of chunks through `process_chunk`, collecting all output. -/
def runChunks : Transformer → List PyVal → List PyVal × Transformer
  | t, [] => ([], t)
  | t, c :: cs =>
    let r := process_chunk t c
    let r2 := runChunks r.2 cs
    (r.1 ++ r2.1, r2.2)

/-- One public call on the transformer. -/
inductive TOp where
  | proc (c : PyVal) : TOp
  | flush : TOp

/-- Replay a sequence of public calls. -/
def runOps : Transformer → List TOp → Transformer
  | t, [] => t
  | t, TOp.proc c :: ops => runOps (process_chunk t c).2 ops
  | t, TOp.flush :: ops => runOps (flush_pending t).2 ops

/-! ### Observations on emitted chunks -/

/-- A reasoning-only test chunk, the shape emitted upstream:
`{"choices": [{"delta": {"reasoning_content": s}}]}`. -/
def mkRChunk (s : List Char) : PyVal :=
  PyVal.dict [(kChoices, PyVal.list [PyVal.dict [(kDelta, PyVal.dict [(kReasoning, PyVal.str s)])]])]

/-- `choices[0].delta.tool_calls[0]` of a chunk, when present. -/
def chunkToolCall0 (c : PyVal) : Option PyVal :=
  match pyDictGet c kChoices with
  | some (PyVal.list (c0 :: _)) =>
    (match pyDictGet c0 kDelta with
     | some d =>
       (match pyDictGet d kToolCalls with
        | some (PyVal.list (tc :: _)) => some tc
        | _ => Option.none)
     | _ => Option.none)
  | _ => Option.none

/-- The `function.arguments` string carried by a chunk (empty if none). -/
def chunkArgText (c : PyVal) : List Char :=
  match chunkToolCall0 c with
  | some tc =>
    (match pyDictGet tc kFunction with
     | some f =>
       (match pyDictGet f kArguments with
        | some (PyVal.str s) => s
        | _ => [])
     | _ => [])
  | _ => []

/-- The `function.name` string carried by a chunk, when non-null. -/
def chunkToolName (c : PyVal) : Option (List Char) :=
  match chunkToolCall0 c with
  | some tc =>
    (match pyDictGet tc kFunction with
     | some f =>
       (match pyDictGet f kName with
        | some (PyVal.str s) => some s
        | _ => Option.none)
     | _ => Option.none)
  | _ => Option.none

/-- The tool-call `id` string carried by a chunk, when present. -/
def chunkCallId (c : PyVal) : Option (List Char) :=
  match chunkToolCall0 c with
  | some tc =>
    (match pyDictGet tc kId with
     | some (PyVal.str s) => some s
     | _ => Option.none)
  | _ => Option.none

/-- Concatenation of every emitted `arguments` fragment, in order. -/
def argsConcat (outs : List PyVal) : List Char := (outs.map chunkArgText).flatten

/-- The first tool name announced in the output stream. -/
def firstName (outs : List PyVal) : Option (List Char) := outs.findSome? chunkToolName

/-- The first tool-call id announced in the output stream. -/
def firstCallId (outs : List PyVal) : Option (List Char) := outs.findSome? chunkCallId

/-! ### `StreamingResponseAggregator` (`app/proxy.py`) -/

/-- The mutable state of one `StreamingResponseAggregator`. -/
structure Aggregator where
  choices : List PyVal
  usage : PyVal
  system_fingerprint : PyVal
  model : PyVal

/-- A freshly constructed aggregator (`usage`/`system_fingerprint`/`model`
start as `None`, `choices` as `[]`). -/
def initAggregator : Aggregator :=
  { choices := [], usage := PyVal.none, system_fingerprint := PyVal.none, model := PyVal.none }

/-- The accumulator slot lazily created for one entry of the first seen
`choices` list. -/
def aggInitSlot (choice : PyVal) : PyVal :=
  PyVal.dict [(kIndex, pyDictGetD choice kIndex (PyVal.int 0)),
              (kDelta, PyVal.dict []),
              (kFinish, PyVal.none),
              (kLogprobs, pyDictGetD choice kLogprobs PyVal.none)]

/-- Merge one incoming tool-call fragment into a found accumulated fragment
with the same `index` (the body of the `existing_idx is not None` branch). -/
def aggMergeInto (ex tc : PyVal) : PyVal :=
  if pyDictHasKey tc kFunction then
    let exF0 :=
      if pyDictHasKey ex kFunction then pyDictGetD ex kFunction PyVal.none
      else PyVal.dict [(kName, PyVal.str []), (kArguments, PyVal.str [])]
    let tcF := pyDictGetD tc kFunction PyVal.none
    let exF1 :=
      if pyDictHasKey tcF kName then
        pyDictSet exF0 kName
          (pyStrConcat (pyOrD (pyDictGetD exF0 kName PyVal.none) (PyVal.str []))
                       (pyOrD (pyDictGetD tcF kName PyVal.none) (PyVal.str [])))
      else exF0
    let exF2 :=
      if pyDictHasKey tcF kArguments then
        pyDictSet exF1 kArguments
          (pyStrConcat (pyOrD (pyDictGetD exF1 kArguments PyVal.none) (PyVal.str []))
                       (pyOrD (pyDictGetD tcF kArguments PyVal.none) (PyVal.str [])))
      else exF1
    pyDictSet ex kFunction exF2
  else ex

/-- Find the first accumulated fragment whose `index` equals the incoming
fragment's `index` and merge into it; `none` if no match. -/
def aggMergeGo (tc : PyVal) : List PyVal → Option (List PyVal)
  | [] => Option.none
  | ex :: t =>
    if pyScalarEq (pyDictGetD ex kIndex PyVal.none) (pyDictGetD tc kIndex PyVal.none) then
      some (aggMergeInto ex tc :: t)
    else (aggMergeGo tc t).map (fun l => ex :: l)

/-- Merge one incoming tool-call fragment into the accumulated list
(append a copy when no `index` matches). -/
def aggMergeToolCall (tcs : List PyVal) (tc : PyVal) : List PyVal :=
  (aggMergeGo tc tcs).getD (tcs ++ [tc])

/-- The delta-accumulation block of the aggregator's per-choice update:
concatenate `content` and `reasoning_content` when present, and merge
`tool_calls` fragments by `index` onto the accumulated delta. -/
def aggAccumulateDelta (slotDelta0 delta : PyVal) : PyVal :=
  let slotDelta1 :=
    if pyDictHasKey delta kContent then
      pyDictSet slotDelta0 kContent
        (pyStrConcat (pyOrD (pyDictGetD slotDelta0 kContent (PyVal.str [])) (PyVal.str []))
                     (pyOrD (pyDictGetD delta kContent PyVal.none) (PyVal.str [])))
    else slotDelta0
  let slotDelta2 :=
    if pyDictHasKey delta kReasoning then
      pyDictSet slotDelta1 kReasoning
        (pyStrConcat (pyOrD (pyDictGetD slotDelta1 kReasoning (PyVal.str [])) (PyVal.str []))
                     (pyOrD (pyDictGetD delta kReasoning PyVal.none) (PyVal.str [])))
    else slotDelta1
  let tcd := pyOrD (pyDictGetD delta kToolCalls PyVal.none) (PyVal.list [])
  if pyTruthy tcd then
    let cur :=
      if pyDictHasKey slotDelta2 kToolCalls then pyDictGetD slotDelta2 kToolCalls PyVal.none
      else PyVal.list []
    let merged := (pyAsList tcd).foldl aggMergeToolCall (pyAsList cur)
    pyDictSet slotDelta2 kToolCalls (PyVal.list merged)
  else slotDelta2

/-- The per-choice update of `process_chunk` (delta accumulation, then
`finish_reason` / `logprobs` last-write-wins). -/
def aggUpdateSlot (slot choice : PyVal) : PyVal :=
  let delta := pyDictGetD choice kDelta (PyVal.dict [])
  let slot1 :=
    pyDictSet slot kDelta (aggAccumulateDelta (pyDictGetD slot kDelta (PyVal.dict [])) delta)
  let slot2 :=
    if pyDictHasKey choice kFinish then pyDictSet slot1 kFinish (pyDictGetD choice kFinish PyVal.none)
    else slot1
  if pyDictHasKey choice kLogprobs then pyDictSet slot2 kLogprobs (pyDictGetD choice kLogprobs PyVal.none)
  else slot2

/-- `StreamingResponseAggregator.process_chunk(chunk)`.  A chunk without a
`choices` key returns immediately — before the metadata capture.  The
per-index loop skips `i >= len(self.choices)`. -/
def aggProcessChunk (a : Aggregator) (chunk : PyVal) : Aggregator :=
  if !pyDictHasKey chunk kChoices then a
  else
    let chs := pyAsList (pyDictGetD chunk kChoices PyVal.none)
    let slots0 := if a.choices.isEmpty then chs.map aggInitSlot else a.choices
    let slots1 := List.zipWith aggUpdateSlot slots0 chs ++ slots0.drop chs.length
    { choices := slots1,
      usage := if pyDictHasKey chunk kUsage then pyDictGetD chunk kUsage PyVal.none else a.usage,
      system_fingerprint :=
        if pyDictHasKey chunk kSysFp then pyDictGetD chunk kSysFp PyVal.none
        else a.system_fingerprint,
      model := if pyDictHasKey chunk kModel then pyDictGetD chunk kModel PyVal.none else a.model }

/-- One final choice entry (`message` synthesized from the accumulated
delta, `role` defaulting to `"assistant"`). -/
def aggFinalizeChoice (slot : PyVal) : PyVal :=
  let delta := pyDictGetD slot kDelta (PyVal.dict [])
  let message := PyVal.dict
    [(kRole, pyDictGetD delta kRole (PyVal.str sAssistant)),
     (kContent, pyDictGetD delta kContent (PyVal.str [])),
     (kReasoning, pyDictGetD delta kReasoning (PyVal.str [])),
     (kToolCalls, pyDictGetD delta kToolCalls (PyVal.list []))]
  PyVal.dict [(kIndex, pyDictGetD slot kIndex PyVal.none),
              (kMessage, message),
              (kFinish, pyDictGetD slot kFinish PyVal.none),
              (kLogprobs, pyDictGetD slot kLogprobs PyVal.none)]

/-- The placeholder for `'chatcmpl-' + generate_request_id()[:8]`: the real
value embeds a fresh UUID fragment; no verified property inspects it. -/
def sChatcmplId : List Char := ("chatcmpl-xxxxxxxx").toList

/-- `get_final_response()`. -/
def get_final_response (a : Aggregator) : Option PyVal :=
  if a.choices.isEmpty then Option.none
  else some (PyVal.dict
    [(kId, PyVal.str sChatcmplId),
     (kObject, PyVal.str sChatCompletion),
     (kCreated, PyVal.none),
     (kModel, pyOrD a.model (PyVal.str sUnknown)),
     (kChoices, PyVal.list (a.choices.map aggFinalizeChoice)),
     (kUsage, a.usage),
     (kSysFp, a.system_fingerprint)])

/-- Fold a chunk sequence through the aggregator. -/
def runAgg (a : Aggregator) (cs : List PyVal) : Aggregator := cs.foldl aggProcessChunk a

/-- The final aggregated response of a chunk sequence. -/
def aggFinal (cs : List PyVal) : Option PyVal := get_final_response (runAgg initAggregator cs)

/-! ### Claim-support definitions -/

/-- The validity-gate wording of claim C4 (a refinement-style definition
following the claim's words, to be compared with `is_valid_chunk`): a chunk
is invalid exactly when it is not an object, or lacks a non-empty `choices`
list, or its `choices[0]` lacks a `delta` field. -/
def chunkInvalidSpec (c : PyVal) : Bool :=
  match c with
  | PyVal.dict _ =>
    (match pyDictGet c kChoices with
     | some (PyVal.list (c0 :: _)) => !pyDictHasKey c0 kDelta
     | _ => true)
  | _ => true

/-- The hypothesis of claim C5 on a valid chunk: `reasoning_content` is
absent/falsy, or is a string with no control-range character, no bracketed
marker and no `functions.` substring. -/
def passthroughSafeRC (c : PyVal) : Bool :=
  let rc := chunkReasoning c
  if !pyTruthy rc then true
  else
    match rc with
    | PyVal.str s =>
      s.all (fun ch => !isCtrlChar ch) && markerList.all (fun m => !strContains s m) &&
        !strContains s functionsDot
    | _ => false

/-- Transformer well-formedness of one chunk: on any other chunk the Python
code raises `TypeError` (truthy non-string `reasoning_content`), so the
model and the code agree exactly on this region. -/
def twWF (c : PyVal) : Bool :=
  !is_valid_chunk c ||
    (match chunkReasoning c with
     | PyVal.str _ => true
     | v => !pyTruthy v)

/-- Transformer well-formedness of one public call. -/
def topWF : TOp → Bool
  | TOp.proc c => twWF c
  | TOp.flush => true

/-- A string-or-falsy field (Python concatenates it with `+` after
an `or ''`, so a truthy non-string raises). -/
def strFieldWF (d : PyVal) (k : List Char) : Bool :=
  match pyDictGet d k with
  | some (PyVal.str _) => true
  | some v => !pyTruthy v
  | Option.none => true

/-- Well-formedness of one tool-call fragment for the aggregator. -/
def tcWF (tc : PyVal) : Bool :=
  match tc with
  | PyVal.dict _ =>
    (match pyDictGet tc kFunction with
     | some (PyVal.dict _) =>
       strFieldWF (pyDictGetD tc kFunction PyVal.none) kName &&
         strFieldWF (pyDictGetD tc kFunction PyVal.none) kArguments
     | some _ => false
     | Option.none => true) &&
    (match pyDictGet tc kIndex with
     | some (PyVal.int _) => true
     | some (PyVal.str _) => true
     | some (PyVal.bool _) => true
     | some PyVal.none => true
     | some _ => false
     | Option.none => true)
  | _ => false

/-- Well-formedness of one entry of a `choices` list for the aggregator. -/
def aggChoiceWF (choice : PyVal) : Bool :=
  match choice with
  | PyVal.dict _ =>
    (match pyDictGet choice kDelta with
     | some (PyVal.dict _) =>
       (let delta := pyDictGetD choice kDelta PyVal.none
        strFieldWF delta kContent && strFieldWF delta kReasoning &&
          (match pyDictGet delta kToolCalls with
           | some (PyVal.list xs) => xs.all tcWF
           | some v => !pyTruthy v
           | Option.none => true))
     | some _ => false
     | Option.none => true)
  | _ => false

/-- Aggregator well-formedness of one chunk: Python raises on every other
chunk (`in` on an `int`, iterating a non-list `choices`, concatenating a
truthy non-string delta field), so the model and the code agree here. -/
def aggChunkWF (c : PyVal) : Bool :=
  match c with
  | PyVal.dict _ =>
    (match pyDictGet c kChoices with
     | some (PyVal.list chs) => chs.all aggChoiceWF
     | some _ => false
     | Option.none => true)
  | PyVal.list _ => true
  | PyVal.str _ => true
  | _ => false

/-- A chunk that carries a non-empty `choices` list (the condition under
which the aggregator materialises its accumulator slots). -/
def hasNonemptyChoices (c : PyVal) : Bool :=
  pyDictHasKey c kChoices && !(pyAsList (pyDictGetD c kChoices PyVal.none)).isEmpty

/-- The amended metadata-capture wording of claim C9: the value of field `k`
carried by the most recent chunk that both has a `choices` key and carries
`k` (`None` when no such chunk exists). -/
def lastCarriedField (k : List Char) (cs : List PyVal) : PyVal :=
  cs.foldl
    (fun acc c =>
      if pyDictHasKey c kChoices && pyDictHasKey c k then pyDictGetD c k PyVal.none else acc)
    PyVal.none

/-- The `usage` field of the final aggregated response of a sequence. -/
def aggFinalField (k : List Char) (cs : List PyVal) : Option PyVal :=
  (aggFinal cs).bind (fun r => pyDictGet r k)

/-- Every message of the final aggregated response has role `"assistant"`. -/
def finalRolesAssistant (cs : List PyVal) : Bool :=
  match aggFinal cs with
  | some r =>
    (pyAsList (pyDictGetD r kChoices (PyVal.list []))).all (fun ch =>
      match pyDictGet (pyDictGetD ch kMessage PyVal.none) kRole with
      | some (PyVal.str s) => s == sAssistant
      | _ => false)
  | Option.none => true

/-- The accumulated per-choice deltas never acquire a `role` key. -/
def accRoleFree (cs : List PyVal) : Bool :=
  (runAgg initAggregator cs).choices.all (fun slot =>
    !pyDictHasKey (pyDictGetD slot kDelta (PyVal.dict [])) kRole)

/-! #### Concrete inputs used by the counterexamples and witnesses -/

/-- A complete marker+header+arguments text (a single chunk reconstructs
`read_file`/`1` with arguments `{"path":"a"}`). -/
def c1TextFull : List Char :=
  ("<|tool_call_begin|>functions.read_file:1<|tool_call_argument_begin|>\x7b\"path\":\"a\"\x7d<|tool_call_end|>").toList

/-- The same text cut in the middle of the `<|tool_call_argument_begin|>`
marker token: first fragment. -/
def c1TextCutA : List Char := ("<|tool_call_begin|>functions.read_file:1<|tool_call_arg").toList

/-- Mid-marker cut: second fragment. -/
def c1TextCutB : List Char := ("ument_begin|>\x7b\"path\":\"a\"\x7d<|tool_call_end|>").toList

/-- A valid JSON object split into two fragments: first fragment. -/
def c2FragA : List Char := ("\x7b\"a\"").toList

/-- Second fragment; the top-level `}` is consumed here. -/
def c2FragB : List Char := (":1\x7d").toList

/-- Header plus the first JSON fragment, as one chunk text. -/
def c2HdrFragA : List Char := ("functions.f:1\x7b\"a\"").toList

/-- A transformer sitting in `ARGUMENT_BUILD` (used to instantiate
universally quantified theorems). -/
def tArgBuild : Transformer :=
  { state := ParserState.ARGUMENT_BUILD,
    builder := { initBuilder with tool_name := ("f").toList, tool_id := ("1").toList },
    pending_chunks := [] }

/-- A transformer sitting in `TOOL_CALL_BUILD`. -/
def tToolBuild : Transformer :=
  { state := ParserState.TOOL_CALL_BUILD, builder := initBuilder, pending_chunks := [] }

/-- An invalid chunk (not an object). -/
def cInvalid : PyVal := PyVal.int 3

/-- C9 counterexample chunk 1: carries `choices`, `usage` 1, `model` "m". -/
def c9c1 : PyVal :=
  PyVal.dict [(kChoices, PyVal.list [PyVal.dict [(kDelta, PyVal.dict [])]]),
              (kUsage, PyVal.int 1), (kModel, PyVal.str (("m").toList))]

/-- C9 counterexample chunk 2: carries `usage` 2 but no `choices` key. -/
def c9c2 : PyVal := PyVal.dict [(kUsage, PyVal.int 2)]

/-- C9 counterexample chunk 3: carries `choices` and a falsy `model` "". -/
def c9c3 : PyVal := PyVal.dict [(kChoices, PyVal.list []), (kModel, PyVal.str [])]

/-- The C9 counterexample sequence. -/
def c9Seq : List PyVal := [c9c1, c9c2, c9c3]

/-- A single wf aggregator chunk with one choice carrying a delta `role`. -/
def c10Chunk : PyVal :=
  PyVal.dict [(kChoices, PyVal.list [PyVal.dict [(kDelta, PyVal.dict
    [(kRole, PyVal.str (("user").toList)), (kContent, PyVal.str (("x").toList))])]])]

/-! ### Basic lemmas -/

/-- No marker occurs in `s` (as a substring). -/
def NoMarker (s : List Char) : Prop := ∀ m ∈ markerList, ¬ m <:+: s

/-- After one `process_chunk` step the successor state is the old state, a
full reset, or a non-IDLE state whose queue is the old queue plus the
chunk, just the chunk, or empty. -/
def ShapeOK (t : Transformer) (c : PyVal) (t' : Transformer) : Prop :=
  t' = t ∨ t' = initTransformer ∨
    (t'.state ≠ ParserState.IDLE ∧
      (t'.pending_chunks = t.pending_chunks ++ [c] ∨ t'.pending_chunks = [c] ∨
        t'.pending_chunks = []))

/-- The IDLE-reset invariant of one transformer state. -/
def CleanWhenIdle (t : Transformer) : Prop :=
  t.state = ParserState.IDLE → t.builder = initBuilder ∧ t.pending_chunks = []

/-- The accumulated delta of one slot has no `role` key. -/
def slotRoleFree (slot : PyVal) : Bool :=
  !pyDictHasKey (pyDictGetD slot kDelta (PyVal.dict [])) kRole

/-- The in-progress reconstruction invariant of claim C1. -/
def c1Inv (nm idd B : List Char) (t : Transformer) : Prop :=
  t.state = ParserState.ARGUMENT_BUILD ∧ t.builder.tool_name = nm ∧
    t.builder.tool_id = idd ∧ t.builder.arguments_buffer = B

/-- The `functions.<name>:<id>` header text of claim C1. -/
def headerText (nm idd : List Char) : List Char := functionsDot ++ nm ++ ':' :: idd

/-- The transformer state right after `_process_idle_state` queues a header
chunk whose reasoning text is `headerText nm idd ++ p0`. -/
def c1T1 (nm idd p0 : List Char) : Transformer :=
  { state := ParserState.TOOL_CALL_BUILD,
    builder := { initBuilder with buffer := headerText nm idd ++ p0 },
    pending_chunks := [mkRChunk (headerText nm idd ++ p0)] }

/-- The transformer state right after `_try_finish_tool_header` recognises
the header `functions.nm:idd` out of `headerText nm idd ++ p0`. -/
def c1T2 (nm idd p0 : List Char) : Transformer :=
  { state := ParserState.ARGUMENT_BUILD,
    builder := { initBuilder with tool_name := nm, tool_id := idd },
    pending_chunks := [mkRChunk (headerText nm idd ++ p0)] }

theorem strContains_iff (hay pat : List Char) : strContains hay pat = true ↔ pat <:+: hay := by
  induction hay with
  | nil =>
    rw [strContains]
    constructor
    · intro h
      split at h
      · rename_i hp
        simpa using (List.isPrefixOf_iff_prefix.mp hp).isInfix
      · simp at h
    · intro h
      have : pat = [] := by
        rcases h with ⟨s, t, hst⟩
        have := List.append_eq_nil.mp hst
        have := List.append_eq_nil.mp this.1
        exact this.2
      subst this
      simp [List.isPrefixOf]
  | cons c t ih =>
    rw [strContains]
    constructor
    · intro h
      split at h
      · rename_i hp
        exact (List.isPrefixOf_iff_prefix.mp hp).isInfix
      · exact (List.infix_cons_iff).mpr (Or.inr (ih.mp h))
    · intro h
      rcases List.infix_cons_iff.mp h with h1 | h2
      · simp [List.isPrefixOf_iff_prefix.mpr h1]
      · split
        · rfl
        · exact ih.mpr h2

/-- A marker matching at the head is one of the five markers as a prefix. -/
theorem markerHeadMatch_some (s : List Char) (h : (markerHeadMatch s).isSome) :
    ∃ m ∈ markerList, m <+: s := by
  rw [markerHeadMatch] at h
  split at h
  · exact ⟨mSectionBegin, by simp [markerList], List.isPrefixOf_iff_prefix.mp (by assumption)⟩
  · split at h
    · exact ⟨mCallBegin, by simp [markerList], List.isPrefixOf_iff_prefix.mp (by assumption)⟩
    · split at h
      · exact ⟨mArgBegin, by simp [markerList], List.isPrefixOf_iff_prefix.mp (by assumption)⟩
      · split at h
        · exact ⟨mCallEnd, by simp [markerList], List.isPrefixOf_iff_prefix.mp (by assumption)⟩
        · split at h
          · exact ⟨mSectionEnd, by simp [markerList], List.isPrefixOf_iff_prefix.mp (by assumption)⟩
          · simp at h

theorem noMarker_tail {c : Char} {t : List Char} (h : NoMarker (c :: t)) : NoMarker t := by
  intro m hm hmt
  exact h m hm (hmt.trans (List.suffix_cons c t).isInfix)

theorem markerHeadMatch_none {s : List Char} (h : NoMarker s) : markerHeadMatch s = Option.none := by
  by_contra hne
  have : (markerHeadMatch s).isSome := by
    cases hmm : markerHeadMatch s
    · exact absurd hmm hne
    · simp
  obtain ⟨m, hm, hp⟩ := markerHeadMatch_some s this
  exact h m hm hp.isInfix

theorem markerSearch_eq_false {s : List Char} (h : NoMarker s) : markerSearch s = false := by
  induction s with
  | nil => simp [markerSearch, markerHeadMatch_none h]
  | cons c t ih => simp [markerSearch, markerHeadMatch_none h, ih (noMarker_tail h)]

theorem markerSubGo_eq_self {s : List Char} (h : NoMarker s) : ∀ fuel, markerSubGo fuel s = s := by
  induction s with
  | nil =>
    intro fuel
    cases fuel with
    | zero => simp [markerSubGo]
    | succ f => rw [markerSubGo, markerHeadMatch_none h]
  | cons c t ih =>
    intro fuel
    cases fuel with
    | zero => simp [markerSubGo]
    | succ f => simp [markerSubGo, markerHeadMatch_none h, ih (noMarker_tail h)]

theorem markerSub_eq_self {s : List Char} (h : NoMarker s) : markerSub s = s :=
  markerSubGo_eq_self h _

/-- `replace` is the identity when the pattern does not occur. -/
theorem pyRemoveAllGo_eq_self {pat s : List Char} (h : ¬ pat <:+: s) :
    ∀ fuel, pyRemoveAllGo pat fuel s = s := by
  induction s with
  | nil =>
    intro fuel
    cases fuel with
    | zero => rfl
    | succ f =>
      rw [pyRemoveAllGo]
      split
      · rename_i hc
        exfalso
        have hp := List.isPrefixOf_iff_prefix.mp (by
          have h2 := hc
          rw [Bool.and_eq_true] at h2
          exact h2.2)
        exact h hp.isInfix
      · rfl
  | cons c t ih =>
    intro fuel
    cases fuel with
    | zero => rfl
    | succ f =>
      rw [pyRemoveAllGo]
      split
      · rename_i hc
        exfalso
        have hp := List.isPrefixOf_iff_prefix.mp (by
          have h2 := hc
          rw [Bool.and_eq_true] at h2
          exact h2.2)
        exact h hp.isInfix
      · have ht : ¬ pat <:+: t := fun hx => h (hx.trans (List.suffix_cons c t).isInfix)
        simp [ih ht]

theorem pyRemoveAll_eq_self {pat s : List Char} (h : ¬ pat <:+: s) : pyRemoveAll s pat = s :=
  pyRemoveAllGo_eq_self h _

theorem strip_argument_markers_eq_self {s : List Char} (h : NoMarker s) :
    strip_argument_markers s = s := by
  rw [strip_argument_markers]
  split
  · rename_i he; simpa using he.symm
  · rw [markerList]
    simp only [List.foldl_cons, List.foldl_nil]
    rw [pyRemoveAll_eq_self (h mSectionBegin (by simp [markerList]))]
    rw [pyRemoveAll_eq_self (h mCallBegin (by simp [markerList]))]
    rw [pyRemoveAll_eq_self (h mArgBegin (by simp [markerList]))]
    rw [pyRemoveAll_eq_self (h mCallEnd (by simp [markerList]))]
    rw [pyRemoveAll_eq_self (h mSectionEnd (by simp [markerList]))]

theorem dropWhile_eq_self_of_head {p : Char → Bool} {s : List Char}
    (h : ∀ x, s.head? = some x → p x = false) : s.dropWhile p = s := by
  cases s with
  | nil => rfl
  | cons c t =>
    rw [List.dropWhile]
    simp [h c rfl]

/-- `strip()` is the identity when neither end is whitespace. -/
theorem pyStrip_eq_self {s : List Char}
    (h1 : ∀ x, s.head? = some x → pyIsSpace x = false)
    (h2 : ∀ x, s.getLast? = some x → pyIsSpace x = false) : pyStrip s = s := by
  rw [pyStrip, dropWhile_eq_self_of_head h1, dropWhile_eq_self_of_head (by
    intro x hx
    exact h2 x (by rwa [List.head?_reverse] at hx))]
  exact List.reverse_reverse s

/-- `strip()` yields an infix of its input. -/
theorem pyStrip_substr (s : List Char) : pyStrip s <:+: s := by
  have h1 : s.dropWhile pyIsSpace <:+ s := List.dropWhile_suffix _
  have h2 : (s.dropWhile pyIsSpace).reverse.dropWhile pyIsSpace <:+ (s.dropWhile pyIsSpace).reverse :=
    List.dropWhile_suffix _
  have h3 : pyStrip s <+: s.dropWhile pyIsSpace := by
    rw [pyStrip]
    rw [← List.reverse_suffix]
    simpa using h2
  exact (h3.isInfix).trans h1.isInfix

/-- With no control characters and no markers, `_strip_markers_and_detect`
only strips whitespace and reports no marker. -/
theorem smad_clean {s : List Char}
    (hc : ∀ c ∈ s, isCtrlChar c = false) (hm : NoMarker s) :
    strip_markers_and_detect s true = (pyStrip s, false) := by
  rw [strip_markers_and_detect]
  split
  · rename_i he
    have : s = [] := by simpa using he
    subst this
    simp [pyStrip, List.dropWhile]
  · have hfilter : s.filter (fun c => !isCtrlChar c) = s :=
      List.filter_eq_self.mpr (by intro a ha; simp [hc a ha])
    have hany : s.any isCtrlChar = false := by
      rw [List.any_eq_false]
      intro a ha
      simp [hc a ha]
    simp only [hfilter, hany, markerSearch_eq_false hm, markerSub_eq_self hm]
    simp

/-- A successful `function_pattern` search implies the literal
`functions.` occurs in the text. -/
theorem function_search_some_substr {s : List Char} {r}
    (h : function_search s = some r) : functionsDot <:+: s := by
  induction s with
  | nil => simp [function_search] at h
  | cons c t ih =>
    rw [function_search] at h
    cases hma : functionMatchAt (c :: t) with
    | some x =>
      rw [functionMatchAt] at hma
      split at hma
      · rename_i hp
        exact (List.isPrefixOf_iff_prefix.mp hp).isInfix
      · simp at hma
    | none =>
      rw [hma] at h
      exact ((ih h).trans (List.suffix_cons c t).isInfix)

theorem looks_like_false {s : List Char} (h : ¬ functionsDot <:+: s) :
    looks_like_tool_start s = false := by
  rw [looks_like_tool_start]
  split
  · rfl
  · have h1 : strContains s functionsDot = false := by
      rw [← Bool.not_eq_true, strContains_iff]
      exact h
    rw [h1, if_neg (by simp)]
    cases hfs : function_search s with
    | some r => exact absurd (function_search_some_substr hfs) h
    | none => rfl

/-! ### Claim C7 -/

/-- Claim C7: a call to `flush` yields every chunk of the Pending Queue
unchanged and in order, and afterwards the transformer is unconditionally
IDLE with an empty queue and a reset builder; consequently flushing an
already-IDLE transformer with an empty queue yields nothing. -/
theorem c7_flush_postcondition (t : Transformer) :
    flush_pending t = (t.pending_chunks, initTransformer) ∧
    (t.pending_chunks = [] → (flush_pending t).1 = []) :=
  ⟨rfl, fun h => h⟩

/-- Witness for C7 at the freshly constructed transformer. -/
theorem c7_flush_postcondition_witness : (flush_pending initTransformer).1 = [] :=
  (c7_flush_postcondition initTransformer).2 rfl

/-! ### Claim C4 -/

/-- Claim C4: a chunk is invalid exactly when it is not an object, lacks a
non-empty `choices` list, or its `choices[0]` lacks a `delta`; an invalid
chunk in IDLE is yielded unchanged; an invalid chunk in a build state
yields nothing, is appended to the Pending Queue, and is replayed verbatim
by a subsequent `flush`. -/
theorem c4_validity_gate (c : PyVal) (t : Transformer) :
    (is_valid_chunk c = !chunkInvalidSpec c) ∧
    (chunkInvalidSpec c = true → t.state = ParserState.IDLE → process_chunk t c = ([c], t)) ∧
    (chunkInvalidSpec c = true →
      (t.state = ParserState.TOOL_CALL_BUILD ∨ t.state = ParserState.ARGUMENT_BUILD) →
      process_chunk t c = ([], { t with pending_chunks := t.pending_chunks ++ [c] }) ∧
      (flush_pending { t with pending_chunks := t.pending_chunks ++ [c] }).1 =
        t.pending_chunks ++ [c]) := by
  have hv : is_valid_chunk c = !chunkInvalidSpec c := by
    cases c with
    | dict es =>
      unfold is_valid_chunk chunkInvalidSpec
      cases hg : pyDictGet (PyVal.dict es) kChoices with
      | none => simp [hg]
      | some v =>
        cases v with
        | list xs =>
          cases xs with
          | nil => simp [hg]
          | cons c0 rest => cases c0 <;> simp [hg, pyDictHasKey, pyDictGet]
        | none => simp [hg]
        | bool b => simp [hg]
        | int n => simp [hg]
        | str s => simp [hg]
        | dict d => simp [hg]
    | none => simp [is_valid_chunk, chunkInvalidSpec]
    | bool b => simp [is_valid_chunk, chunkInvalidSpec]
    | int n => simp [is_valid_chunk, chunkInvalidSpec]
    | str s => simp [is_valid_chunk, chunkInvalidSpec]
    | list xs => simp [is_valid_chunk, chunkInvalidSpec]
  refine ⟨hv, ?_, ?_⟩
  · intro hinv hidle
    have hval : is_valid_chunk c = false := by rw [hv, hinv]; rfl
    rw [process_chunk, hval]
    simp only [Bool.not_false, if_true, Bool.not_true, Bool.false_eq_true, if_false]
    rw [hidle]
    rfl
  · intro hinv hbuild
    have hval : is_valid_chunk c = false := by rw [hv, hinv]; rfl
    have hstate : (t.state == ParserState.IDLE) = false := by
      rcases hbuild with h | h <;> rw [h] <;> rfl
    rw [process_chunk, hval]
    simp only [hstate, Bool.not_false, Bool.false_eq_true, if_false, if_true]
    exact ⟨trivial, rfl⟩

/-- Witness for C4 at a concrete invalid chunk in a build state. -/
theorem c4_validity_gate_witness :
    process_chunk tToolBuild cInvalid = ([], { tToolBuild with pending_chunks := [cInvalid] }) ∧
    (flush_pending { tToolBuild with pending_chunks := [cInvalid] }).1 = [cInvalid] := by
  have h := (c4_validity_gate cInvalid tToolBuild).2.2 rfl (Or.inl rfl)
  exact h

/-! ### Claim C2 -/

/-- Claim C2 (code bug): the Completeness Tracker is re-run by the code on
the whole accumulated buffer while its brace/string state persists across
calls, so a JSON object split across fragments is never reported complete.
For the fragments `{"a"` and `:1}`: no completion at the first fragment
(correct), no completion at the second fragment either — neither under the
code's cumulative-buffer call nor under fragment-wise feeding — although
the concatenation is one valid JSON object whose top-level `}` is consumed
in the second fragment (fed whole, the tracker does report it).  Fed the
same split through the transformer, the state machine consequently remains
stuck in `ARGUMENT_BUILD`. -/
theorem c2_completion_detection_code_bug :
    (try_parse_json initBuilder c2FragA).1 = false ∧
    (try_parse_json (try_parse_json initBuilder c2FragA).2.2 (c2FragA ++ c2FragB)).1 = false ∧
    (try_parse_json (try_parse_json initBuilder c2FragA).2.2 c2FragB).1 = false ∧
    json_loads_ok (c2FragA ++ c2FragB) = true ∧
    (try_parse_json initBuilder (c2FragA ++ c2FragB)).1 = true ∧
    (runChunks initTransformer [mkRChunk c2HdrFragA, mkRChunk c2FragB]).2.state =
      ParserState.ARGUMENT_BUILD :=
  ⟨rfl, rfl, rfl, rfl, rfl, rfl⟩

/-! ### Claim C6 -/

/-- `_emit_argument_delta` resets to IDLE whenever the raw fragment
contains an end marker, emitting at most the one argument chunk for the
fragment, whether or not JSON completion also fires. -/
theorem emit_end_reset {t : Transformer} {raw : List Char} {orig : PyVal}
    (h : hasEndMarkerRaw raw = true) :
    (emit_argument_delta t raw orig).2 = initTransformer ∧
    (emit_argument_delta t raw orig).1.length ≤ 1 := by
  have hne : raw.isEmpty = false := by
    cases raw with
    | nil => exact absurd h (by decide)
    | cons a l => rfl
  rw [emit_argument_delta, hne]
  simp only [Bool.false_eq_true, if_false, h, if_true]
  split
  · exact ⟨rfl, by simp⟩
  · split
    · exact ⟨rfl, by simp⟩
    · exact ⟨rfl, by simp⟩

/-- Claim C6: in `ARGUMENT_BUILD`, a fragment whose raw text contains
`tool_call_end` or `tool_calls_section_end` resets the transformer to IDLE
(builder reset, queue cleared) right after the fragment's argument chunk
(at most one chunk) is emitted; the marker signal yields the same reset
whether or not JSON completeness also fires on the same fragment. -/
theorem c6_end_marker_reset (t : Transformer) (c : PyVal) (s : List Char)
    (h1 : t.state = ParserState.ARGUMENT_BUILD) (h2 : is_valid_chunk c = true)
    (h3 : chunkReasoning c = PyVal.str s)
    (h4 : strContains s mCallEnd = true ∨ strContains s mSectionEnd = true) :
    (process_chunk t c).2 = initTransformer ∧ (process_chunk t c).1.length ≤ 1 := by
  have hEnd : hasEndMarkerRaw s = true := by
    rw [hasEndMarkerRaw]
    rcases h4 with h | h <;> simp [h]
  have hsne : s ≠ [] := by
    intro hs
    rw [hs] at hEnd
    exact (by decide : hasEndMarkerRaw [] ≠ true) hEnd
  have hc : (t.state == ParserState.IDLE && !pyTruthy (chunkReasoning c)) = false := by
    rw [h1]; rfl
  rw [process_chunk, h2]
  simp only [Bool.not_true, Bool.false_eq_true, if_false]
  rw [if_neg (by simp [hc])]
  rw [h1]
  show (process_argument_build_state t c (chunkReasoning c)).2 = initTransformer ∧
      (process_argument_build_state t c (chunkReasoning c)).1.length ≤ 1
  rw [process_argument_build_state]
  have hor : pyOrEmptyStr (chunkReasoning c) = s := by
    rw [h3, pyOrEmptyStr]
    simp [pyTruthy, hsne, pyValToStr]
  rw [hor]
  exact emit_end_reset hEnd

/-- Witness for C6: a fragment that is exactly the `tool_call_end` marker,
processed in `ARGUMENT_BUILD`. -/
theorem c6_end_marker_reset_witness :
    (process_chunk tArgBuild (mkRChunk mCallEnd)).2 = initTransformer ∧
    (process_chunk tArgBuild (mkRChunk mCallEnd)).1.length ≤ 1 :=
  c6_end_marker_reset tArgBuild (mkRChunk mCallEnd) mCallEnd rfl rfl rfl (Or.inl (by decide))

/-! ### Claim C5 -/

/-- Claim C5: a valid chunk whose `reasoning_content` is absent/falsy or
contains no control-range character, no bracketed marker and no
`functions.` substring is yielded exactly once, unchanged, by
`process_chunk` in IDLE, and the whole transformer state is untouched. -/
theorem c5_passthrough_invariance (t : Transformer) (c : PyVal)
    (h1 : t.state = ParserState.IDLE) (h2 : is_valid_chunk c = true)
    (h3 : passthroughSafeRC c = true) :
    process_chunk t c = ([c], t) := by
  rw [process_chunk, h2]
  simp only [Bool.not_true, Bool.false_eq_true, if_false]
  by_cases htr : pyTruthy (chunkReasoning c) = true
  · have hcond : (t.state == ParserState.IDLE && !pyTruthy (chunkReasoning c)) = false := by
      rw [htr]; simp
    rw [if_neg (by simp [hcond]), h1]
    show process_idle_state t c (chunkReasoning c) = ([c], t)
    rw [passthroughSafeRC] at h3
    rw [if_neg (by simp [htr])] at h3
    cases hrc : chunkReasoning c with
    | str s =>
      rw [hrc] at h3 htr
      simp only at h3
      rw [Bool.and_eq_true, Bool.and_eq_true] at h3
      obtain ⟨⟨hctrl, hmark⟩, hfn⟩ := h3
      have hc' : ∀ ch ∈ s, isCtrlChar ch = false := by
        intro ch hch
        have := List.all_eq_true.mp hctrl ch hch
        simpa using this
      have hm' : NoMarker s := by
        intro m hm hinf
        have := List.all_eq_true.mp hmark m hm
        rw [Bool.not_eq_true', ← Bool.not_eq_true] at this
        exact this ((strContains_iff s m).mpr hinf)
      have hfn' : ¬ functionsDot <:+: s := by
        rw [Bool.not_eq_true', ← Bool.not_eq_true] at hfn
        exact fun hx => hfn ((strContains_iff s functionsDot).mpr hx)
      have hsmad : strip_markers_and_detect (pyValToStr (PyVal.str s)) true = (pyStrip s, false) := by
        rw [pyValToStr]
        exact smad_clean hc' hm'
      have hlooks : looks_like_tool_start (pyStrip s) = false :=
        looks_like_false (fun hx => hfn' (hx.trans (pyStrip_substr s)))
      rw [process_idle_state, if_neg (by simp [htr])]
      simp [hsmad, hlooks]
    | none => rw [hrc] at h3; simp at h3
    | bool b => rw [hrc] at h3; simp at h3
    | int n => rw [hrc] at h3; simp at h3
    | list xs => rw [hrc] at h3; simp at h3
    | dict es => rw [hrc] at h3; simp at h3
  · have htr' : pyTruthy (chunkReasoning c) = false := by
      cases hx : pyTruthy (chunkReasoning c)
      · rfl
      · exact absurd hx htr
    rw [if_pos (by rw [h1, htr']; rfl)]

/-- Witness for C5: a plain reasoning chunk passes through a fresh
transformer untouched. -/
theorem c5_passthrough_invariance_witness :
    process_chunk initTransformer (mkRChunk (("hello world").toList)) =
      ([mkRChunk (("hello world").toList)], initTransformer) :=
  c5_passthrough_invariance initTransformer (mkRChunk (("hello world").toList)) rfl rfl (by decide)

/-! ### State-machine shape lemmas (for the IDLE invariant and flush claims) -/

theorem shapeOK_of_emit (t : Transformer) (c : PyVal) (T : Transformer)
    (raw : List Char) (orig : PyVal)
    (hstate : T.state ≠ ParserState.IDLE)
    (hpend : T.pending_chunks = t.pending_chunks ++ [c] ∨ T.pending_chunks = [c] ∨
      T.pending_chunks = []) :
    ShapeOK t c (emit_argument_delta T raw orig).2 := by
  have hT : ShapeOK t c T := Or.inr (Or.inr ⟨hstate, hpend⟩)
  have hT2 : ∀ b2 : ToolCallBuilder,
      ShapeOK t c { state := T.state, builder := b2, pending_chunks := T.pending_chunks } :=
    fun b2 => Or.inr (Or.inr ⟨hstate, hpend⟩)
  have hInit : ShapeOK t c initTransformer := Or.inr (Or.inl rfl)
  simp only [emit_argument_delta]
  split
  · exact hT
  · split
    · split
      · exact hInit
      · exact hT
    · split
      · exact hInit
      · split
        · exact hInit
        · exact hT2 _

theorem shapeOK_of_tfth (t : Transformer) (c : PyVal) (T : Transformer) (cf : PyVal)
    (hstate : T.state ≠ ParserState.IDLE)
    (hpend : T.pending_chunks = t.pending_chunks ++ [c] ∨ T.pending_chunks = [c] ∨
      T.pending_chunks = []) :
    ShapeOK t c (try_finish_tool_header T cf).2 := by
  simp only [try_finish_tool_header]
  split
  · exact Or.inr (Or.inr ⟨hstate, hpend⟩)
  · split
    · exact Or.inr (Or.inr ⟨fun h => ParserState.noConfusion h, hpend⟩)
    · exact shapeOK_of_emit t c _ _ cf (fun h => ParserState.noConfusion h) hpend

theorem idle_shape (t : Transformer) (c : PyVal) (rc : PyVal) :
    ShapeOK t c (process_idle_state t c rc).2 := by
  simp only [process_idle_state]
  split
  · exact Or.inl rfl
  · split
    · exact Or.inl rfl
    · split
      · exact Or.inr (Or.inr ⟨fun h => ParserState.noConfusion h, Or.inr (Or.inr rfl)⟩)
      · split
        · exact Or.inl rfl
        · exact shapeOK_of_tfth t c _ c (fun h => ParserState.noConfusion h) (Or.inr (Or.inl rfl))

theorem process_chunk_shape (t : Transformer) (c : PyVal) :
    ShapeOK t c (process_chunk t c).2 := by
  simp only [process_chunk]
  split
  · split
    · exact Or.inl rfl
    · rename_i hs
      exact Or.inr (Or.inr ⟨fun h => by rw [h] at hs; exact hs rfl, Or.inl rfl⟩)
  · split
    · exact Or.inl rfl
    · split
      · exact idle_shape t c _
      · rename_i ht
        simp only [process_tool_call_build_state]
        refine shapeOK_of_tfth t c _ c (fun h => ?_) (Or.inl rfl)
        have h' : t.state = ParserState.IDLE := h
        rw [ht] at h'
        exact ParserState.noConfusion h'
      · rename_i ht
        simp only [process_argument_build_state]
        refine shapeOK_of_emit t c _ _ c (fun h => ?_) (Or.inl rfl)
        have h' : t.state = ParserState.IDLE := h
        rw [ht] at h'
        exact ParserState.noConfusion h'

/-! ### Claim C8 -/

theorem cleanWhenIdle_step {t : Transformer} (c : PyVal) (h : CleanWhenIdle t) :
    CleanWhenIdle (process_chunk t c).2 := by
  rcases process_chunk_shape t c with heq | heq | ⟨hne, _⟩
  · rw [heq]; exact h
  · rw [heq]; exact fun _ => ⟨rfl, rfl⟩
  · exact fun hidle => absurd hidle hne

theorem runOps_clean (ops : List TOp) : ∀ t : Transformer, CleanWhenIdle t →
    CleanWhenIdle (runOps t ops) := by
  induction ops with
  | nil => intro t h; exact h
  | cons op ops ih =>
    intro t h
    cases op with
    | proc c => exact ih _ (cleanWhenIdle_step c h)
    | flush => exact ih _ (fun _ => ⟨rfl, rfl⟩)

/-- Claim C8: after any sequence of `process_chunk` / `flush_pending` calls
on a fresh transformer, whenever the state is IDLE the reconstruction
buffer is fully reset (header buffer, tool name, tool id, arguments buffer
empty; brace depth zero; not inside a string; no escape pending) and the
Pending Queue is empty. -/
theorem c8_idle_reset_invariant (ops : List TOp) (_hwf : ops.all topWF = true)
    (h : (runOps initTransformer ops).state = ParserState.IDLE) :
    (runOps initTransformer ops).builder = initBuilder ∧
    (runOps initTransformer ops).pending_chunks = [] :=
  runOps_clean ops initTransformer (fun _ => ⟨rfl, rfl⟩) h

/-- Witness for C8: the empty call sequence. -/
theorem c8_idle_reset_invariant_witness :
    (runOps initTransformer []).builder = initBuilder ∧
    (runOps initTransformer []).pending_chunks = [] :=
  c8_idle_reset_invariant [] rfl rfl

/-! ### Claim C3 -/

/-- Counterexample to C3 as stated: the single chunk
`functions.f:1{"a"` enters a build, already yields a start chunk and an
argument chunk, while the original is also queued; so flush output
appended to previous output has three chunks, not the one fed, and the
concatenation cannot reproduce the input sequence. -/
theorem c3_loss_free_flush_cex :
    (runChunks initTransformer [mkRChunk c2HdrFragA]).2.state ≠ ParserState.IDLE ∧
    ((runChunks initTransformer [mkRChunk c2HdrFragA]).1 ++
      (flush_pending (runChunks initTransformer [mkRChunk c2HdrFragA]).2).1).length = 3 ∧
    (runChunks initTransformer [mkRChunk c2HdrFragA]).1 ++
      (flush_pending (runChunks initTransformer [mkRChunk c2HdrFragA]).2).1 ≠
      [mkRChunk c2HdrFragA] := by
  refine ⟨by decide, rfl, ?_⟩
  intro h
  have h2 := congrArg List.length h
  rw [show ((runChunks initTransformer [mkRChunk c2HdrFragA]).1 ++
      (flush_pending (runChunks initTransformer [mkRChunk c2HdrFragA]).2).1).length = 3 from rfl] at h2
  exact absurd h2 (by decide)

theorem runChunks_pending_sublist (cs : List PyVal) : ∀ (t : Transformer) (prev : List PyVal),
    t.pending_chunks.Sublist prev → (runChunks t cs).2.pending_chunks.Sublist (prev ++ cs) := by
  induction cs with
  | nil => intro t prev h; simpa using h
  | cons c cs ih =>
    intro t prev h
    show (runChunks (process_chunk t c).2 cs).2.pending_chunks.Sublist (prev ++ c :: cs)
    have hstep : (process_chunk t c).2.pending_chunks.Sublist (prev ++ [c]) := by
      rcases process_chunk_shape t c with heq | heq | ⟨_, hp | hp | hp⟩
      · rw [heq]
        exact h.trans (List.sublist_append_left prev [c])
      · rw [heq]
        exact List.nil_sublist _
      · rw [hp]
        exact h.append (List.Sublist.refl [c])
      · rw [hp]
        exact List.sublist_append_right prev [c]
      · rw [hp]
        exact List.nil_sublist _
    have := ih (process_chunk t c).2 (prev ++ [c]) hstep
    simpa using this

/-- Claim C3, amended: the chunks yielded by `flush` are exactly the
Pending Queue, in order — an ordered subsequence of the chunks fed (those
retained during the in-progress reconstruction) — rather than the whole
original feed, part of which was already forwarded (possibly transformed)
as it was processed. -/
theorem c3_loss_free_flush_amended (cs : List PyVal) (_hwf : cs.all twWF = true) :
    (flush_pending (runChunks initTransformer cs).2).1 =
      (runChunks initTransformer cs).2.pending_chunks ∧
    (runChunks initTransformer cs).2.pending_chunks.Sublist cs := by
  refine ⟨rfl, ?_⟩
  have := runChunks_pending_sublist cs initTransformer [] (List.nil_sublist [])
  simpa using this

/-- Witness for C3 (amended) on a concrete in-progress reconstruction. -/
theorem c3_loss_free_flush_amended_witness :
    (flush_pending (runChunks initTransformer [mkRChunk functionsDot]).2).1 =
      (runChunks initTransformer [mkRChunk functionsDot]).2.pending_chunks ∧
    (runChunks initTransformer [mkRChunk functionsDot]).2.pending_chunks.Sublist
      [mkRChunk functionsDot] :=
  c3_loss_free_flush_amended [mkRChunk functionsDot] (by decide)

/-! ### Claim C9 -/

theorem aggProcess_usage (a : Aggregator) (c : PyVal) :
    (aggProcessChunk a c).usage =
      if pyDictHasKey c kChoices && pyDictHasKey c kUsage then pyDictGetD c kUsage PyVal.none
      else a.usage := by
  by_cases h : pyDictHasKey c kChoices
  · rw [aggProcessChunk, if_neg (by simp [h])]
    simp [h]
  · rw [aggProcessChunk, if_pos (by simp [h])]
    simp [h]

theorem aggProcess_sysfp (a : Aggregator) (c : PyVal) :
    (aggProcessChunk a c).system_fingerprint =
      if pyDictHasKey c kChoices && pyDictHasKey c kSysFp then pyDictGetD c kSysFp PyVal.none
      else a.system_fingerprint := by
  by_cases h : pyDictHasKey c kChoices
  · rw [aggProcessChunk, if_neg (by simp [h])]
    simp [h]
  · rw [aggProcessChunk, if_pos (by simp [h])]
    simp [h]

theorem aggProcess_model (a : Aggregator) (c : PyVal) :
    (aggProcessChunk a c).model =
      if pyDictHasKey c kChoices && pyDictHasKey c kModel then pyDictGetD c kModel PyVal.none
      else a.model := by
  by_cases h : pyDictHasKey c kChoices
  · rw [aggProcessChunk, if_neg (by simp [h])]
    simp [h]
  · rw [aggProcessChunk, if_pos (by simp [h])]
    simp [h]

/-- The captured field after a fold is the last carried value (generalised
over the starting value). -/
theorem runAgg_usage (cs : List PyVal) : ∀ a : Aggregator,
    (runAgg a cs).usage = cs.foldl
      (fun acc c =>
        if pyDictHasKey c kChoices && pyDictHasKey c kUsage then pyDictGetD c kUsage PyVal.none
        else acc) a.usage := by
  induction cs with
  | nil => intro a; rfl
  | cons c cs ih =>
    intro a
    show (runAgg (aggProcessChunk a c) cs).usage = _
    rw [ih, aggProcess_usage]
    rfl

theorem runAgg_sysfp (cs : List PyVal) : ∀ a : Aggregator,
    (runAgg a cs).system_fingerprint = cs.foldl
      (fun acc c =>
        if pyDictHasKey c kChoices && pyDictHasKey c kSysFp then pyDictGetD c kSysFp PyVal.none
        else acc) a.system_fingerprint := by
  induction cs with
  | nil => intro a; rfl
  | cons c cs ih =>
    intro a
    show (runAgg (aggProcessChunk a c) cs).system_fingerprint = _
    rw [ih, aggProcess_sysfp]
    rfl

theorem runAgg_model (cs : List PyVal) : ∀ a : Aggregator,
    (runAgg a cs).model = cs.foldl
      (fun acc c =>
        if pyDictHasKey c kChoices && pyDictHasKey c kModel then pyDictGetD c kModel PyVal.none
        else acc) a.model := by
  induction cs with
  | nil => intro a; rfl
  | cons c cs ih =>
    intro a
    show (runAgg (aggProcessChunk a c) cs).model = _
    rw [ih, aggProcess_model]
    rfl

theorem zip_update_length (xs ys : List PyVal) :
    (List.zipWith aggUpdateSlot xs ys ++ xs.drop ys.length).length = xs.length := by
  simp [List.length_zipWith]
  omega

theorem aggProcess_choices_ne (a : Aggregator) (c : PyVal) (h : a.choices ≠ []) :
    (aggProcessChunk a c).choices ≠ [] := by
  rw [aggProcessChunk]
  split
  · exact h
  · intro hempty
    have hlen := congrArg List.length hempty
    rw [zip_update_length] at hlen
    simp only [List.length_nil] at hlen
    have : a.choices.isEmpty = false := by
      cases hx : a.choices
      · exact absurd hx h
      · rfl
    rw [if_neg (by simp [this])] at hlen
    exact h (List.length_eq_zero.mp hlen)

theorem aggProcess_choices_ne2 (a : Aggregator) (c : PyVal)
    (h : hasNonemptyChoices c = true) : (aggProcessChunk a c).choices ≠ [] := by
  rw [hasNonemptyChoices, Bool.and_eq_true] at h
  obtain ⟨hk, hne⟩ := h
  rw [aggProcessChunk, if_neg (by simp [hk])]
  intro hempty
  have hlen := congrArg List.length hempty
  rw [zip_update_length] at hlen
  simp only [List.length_nil] at hlen
  have hchs : pyAsList (pyDictGetD c kChoices PyVal.none) ≠ [] := by
    intro hx
    rw [hx] at hne
    simp at hne
  split at hlen
  · rw [List.length_map] at hlen
    exact hchs (List.length_eq_zero.mp hlen)
  · rename_i hae
    have hne' : a.choices ≠ [] := by
      intro hx
      rw [hx] at hae
      exact hae rfl
    exact hne' (List.length_eq_zero.mp hlen)

theorem runAgg_choices_ne (cs : List PyVal) : ∀ a : Aggregator, a.choices ≠ [] →
    (runAgg a cs).choices ≠ [] := by
  induction cs with
  | nil => intro a h; exact h
  | cons c cs ih => intro a h; exact ih _ (aggProcess_choices_ne a c h)

theorem runAgg_any_ne (cs : List PyVal) (h : cs.any hasNonemptyChoices = true) :
    ∀ a : Aggregator, (runAgg a cs).choices ≠ [] := by
  induction cs with
  | nil => simp at h
  | cons c cs ih =>
    intro a
    rw [List.any_cons, Bool.or_eq_true] at h
    rcases h with h | h
    · exact runAgg_choices_ne cs _ (aggProcess_choices_ne2 a c h)
    · exact ih h _

/-- Counterexample to C9 as stated: in `[c9c1, c9c2, c9c3]` the most recent
chunk carrying `usage` is `c9c2` (value 2), but it lacks a `choices` key,
so the aggregator's early return skips its metadata capture and the final
response reports the older value 1; and the most recent `model` carrier
`c9c3` carries the falsy value `""`, which `get_final_response` replaces by
`"unknown"`. -/
theorem c9_metadata_capture_cex :
    pyDictHasKey c9c2 kUsage = true ∧ pyDictGetD c9c2 kUsage PyVal.none = PyVal.int 2 ∧
    pyDictHasKey c9c3 kUsage = false ∧
    pyDictHasKey c9c3 kModel = true ∧ pyDictGetD c9c3 kModel PyVal.none = PyVal.str [] ∧
    aggFinalField kUsage c9Seq = some (PyVal.int 1) ∧
    aggFinalField kUsage c9Seq ≠ some (PyVal.int 2) ∧
    aggFinalField kModel c9Seq = some (PyVal.str sUnknown) ∧
    aggFinalField kModel c9Seq ≠ some (PyVal.str []) := by
  refine ⟨rfl, rfl, rfl, rfl, rfl, rfl, ?_, rfl, ?_⟩
  · intro h
    rw [show aggFinalField kUsage c9Seq = some (PyVal.int 1) from rfl] at h
    injection h with h1
    injection h1 with h2
    exact absurd h2 (by decide)
  · intro h
    rw [show aggFinalField kModel c9Seq = some (PyVal.str sUnknown) from rfl] at h
    injection h with h1
    injection h1 with h2
    exact absurd (congrArg List.length h2) (by decide)

/-- Claim C9, amended: among chunks possessing a `choices` key, the
`usage`, `system_fingerprint` and `model` captured in the final aggregated
response equal the values carried by the most recent such chunk carrying
each field (`None` when never carried); the final `model` additionally
falls back to `"unknown"` whenever the captured value is falsy. -/
theorem c9_metadata_capture_amended (cs : List PyVal) (_hwf : cs.all aggChunkWF = true)
    (hne : cs.any hasNonemptyChoices = true) :
    ∃ r, aggFinal cs = some r ∧
      pyDictGet r kUsage = some (lastCarriedField kUsage cs) ∧
      pyDictGet r kSysFp = some (lastCarriedField kSysFp cs) ∧
      pyDictGet r kModel = some (pyOrD (lastCarriedField kModel cs) (PyVal.str sUnknown)) := by
  have hch := runAgg_any_ne cs hne initAggregator
  rw [aggFinal, get_final_response, if_neg (by simpa using hch)]
  refine ⟨_, rfl, ?_, ?_, ?_⟩
  · show some (runAgg initAggregator cs).usage = some (lastCarriedField kUsage cs)
    rw [runAgg_usage]
    rfl
  · show some (runAgg initAggregator cs).system_fingerprint =
      some (lastCarriedField kSysFp cs)
    rw [runAgg_sysfp]
    rfl
  · show some (pyOrD (runAgg initAggregator cs).model (PyVal.str sUnknown)) =
      some (pyOrD (lastCarriedField kModel cs) (PyVal.str sUnknown))
    rw [runAgg_model]
    rfl

/-- Witness for C9 (amended) on a concrete two-chunk sequence. -/
theorem c9_metadata_capture_amended_witness :
    ∃ r, aggFinal [c9c1] = some r ∧
      pyDictGet r kUsage = some (lastCarriedField kUsage [c9c1]) ∧
      pyDictGet r kSysFp = some (lastCarriedField kSysFp [c9c1]) ∧
      pyDictGet r kModel = some (pyOrD (lastCarriedField kModel [c9c1]) (PyVal.str sUnknown)) :=
  c9_metadata_capture_amended [c9c1] (by decide) (by decide)

/-! ### Claim C10 -/

theorem lookup_setEntries_ne (es : List (List Char × PyVal)) (k k2 : List Char) (v : PyVal)
    (h : (k == k2) = false) : lookupEntries (setEntries es k v) k2 = lookupEntries es k2 := by
  induction es with
  | nil =>
    simp only [setEntries, lookupEntries, h]
    rfl
  | cons e t ih =>
    obtain ⟨k', v'⟩ := e
    rw [setEntries]
    by_cases hk : (k' == k) = true
    · rw [if_pos hk]
      have hkk : k' = k := by simpa using hk
      subst hkk
      simp [lookupEntries, h]
    · rw [if_neg (by simp [hk])]
      by_cases hk2 : (k' == k2) = true
      · simp only [lookupEntries, hk2, if_true]
      · simp only [lookupEntries, Bool.not_eq_true] at *
        rw [hk2]
        simp only [Bool.false_eq_true, if_false]
        exact ih

theorem pyDictGet_set_ne (d : PyVal) (k k2 : List Char) (v : PyVal)
    (h : (k == k2) = false) : pyDictGet (pyDictSet d k v) k2 = pyDictGet d k2 := by
  cases d <;> simp only [pyDictSet, pyDictGet]
  exact lookup_setEntries_ne _ k k2 v h

theorem pyDictHasKey_set_ne (d : PyVal) (k k2 : List Char) (v : PyVal)
    (h : (k == k2) = false) : pyDictHasKey (pyDictSet d k v) k2 = pyDictHasKey d k2 := by
  rw [pyDictHasKey, pyDictHasKey, pyDictGet_set_ne d k k2 v h]

theorem lookup_setEntries_self (es : List (List Char × PyVal)) (k : List Char) (v : PyVal) :
    lookupEntries (setEntries es k v) k = some v := by
  induction es with
  | nil => simp [setEntries, lookupEntries]
  | cons e t ih =>
    obtain ⟨k', v'⟩ := e
    rw [setEntries]
    by_cases hk : (k' == k) = true
    · rw [if_pos hk]
      simp only [lookupEntries, hk, if_true]
    · rw [if_neg (by simp [hk])]
      simp only [lookupEntries, Bool.not_eq_true] at *
      rw [hk]
      simp only [Bool.false_eq_true, if_false]
      exact ih


theorem slotRoleFree_initSlot (choice : PyVal) : slotRoleFree (aggInitSlot choice) = true := rfl

theorem roleFree_ite_set (d : PyVal) (p : Prop) [Decidable p] (k : List Char) (v : PyVal)
    (hk : (k == kRole) = false) (h : pyDictHasKey d kRole = false) :
    pyDictHasKey (if p then pyDictSet d k v else d) kRole = false := by
  split
  · rw [pyDictHasKey_set_ne d k kRole v hk]
    exact h
  · exact h

theorem accDelta_roleFree (d delta : PyVal) (h : pyDictHasKey d kRole = false) :
    pyDictHasKey (aggAccumulateDelta d delta) kRole = false := by
  rw [aggAccumulateDelta]
  exact roleFree_ite_set _ _ kToolCalls _ (by decide)
    (roleFree_ite_set _ _ kReasoning _ (by decide)
      (roleFree_ite_set _ _ kContent _ (by decide) h))

theorem get_ite_set_ne (d : PyVal) (p : Prop) [Decidable p] (k k2 : List Char) (v : PyVal)
    (hk : (k == k2) = false) :
    pyDictGet (if p then pyDictSet d k v else d) k2 = pyDictGet d k2 := by
  split
  · exact pyDictGet_set_ne d k k2 v hk
  · rfl

theorem pyDictSet_nondict (slot : PyVal) (k : List Char) (v : PyVal)
    (h : ∀ es, slot ≠ PyVal.dict es) : pyDictSet slot k v = slot := by
  cases slot with
  | dict es => exact absurd rfl (h es)
  | none => rfl
  | bool b => rfl
  | int n => rfl
  | str s => rfl
  | list xs => rfl

theorem slotRoleFree_update (slot choice : PyVal) (h : slotRoleFree slot = true) :
    slotRoleFree (aggUpdateSlot slot choice) = true := by
  rw [slotRoleFree, Bool.not_eq_true'] at h
  rw [slotRoleFree, Bool.not_eq_true']
  rw [aggUpdateSlot]
  cases hslot : slot with
  | dict es =>
    rw [← hslot]
    have hget :
        pyDictGet
          (if pyDictHasKey choice kLogprobs then
            pyDictSet
              (if pyDictHasKey choice kFinish then
                pyDictSet
                  (pyDictSet slot kDelta
                    (aggAccumulateDelta (pyDictGetD slot kDelta (PyVal.dict [])) (pyDictGetD choice kDelta (PyVal.dict []))))
                  kFinish (pyDictGetD choice kFinish PyVal.none)
              else
                pyDictSet slot kDelta
                  (aggAccumulateDelta (pyDictGetD slot kDelta (PyVal.dict [])) (pyDictGetD choice kDelta (PyVal.dict []))))
              kLogprobs (pyDictGetD choice kLogprobs PyVal.none)
          else
            if pyDictHasKey choice kFinish then
              pyDictSet
                (pyDictSet slot kDelta
                  (aggAccumulateDelta (pyDictGetD slot kDelta (PyVal.dict [])) (pyDictGetD choice kDelta (PyVal.dict []))))
                kFinish (pyDictGetD choice kFinish PyVal.none)
            else
              pyDictSet slot kDelta
                (aggAccumulateDelta (pyDictGetD slot kDelta (PyVal.dict [])) (pyDictGetD choice kDelta (PyVal.dict [])))) kDelta =
        some (aggAccumulateDelta (pyDictGetD slot kDelta (PyVal.dict [])) (pyDictGetD choice kDelta (PyVal.dict []))) := by
      rw [get_ite_set_ne _ _ kLogprobs kDelta _ (by decide)]
      rw [get_ite_set_ne _ _ kFinish kDelta _ (by decide)]
      rw [hslot]
      show lookupEntries (setEntries es kDelta _) kDelta = _
      exact lookup_setEntries_self es kDelta _
    rw [pyDictGetD, hget]
    show pyDictHasKey (aggAccumulateDelta (pyDictGetD slot kDelta (PyVal.dict [])) (pyDictGetD choice kDelta (PyVal.dict []))) kRole = false
    exact accDelta_roleFree _ _ h
  | none => split <;> split <;> rfl
  | bool b => split <;> split <;> rfl
  | int n => split <;> split <;> rfl
  | str s => split <;> split <;> rfl
  | list xs => split <;> split <;> rfl

theorem zipWith_roleFree (xs : List PyVal) : ∀ ys : List PyVal,
    xs.all slotRoleFree = true → (List.zipWith aggUpdateSlot xs ys).all slotRoleFree = true := by
  induction xs with
  | nil => intro ys _; cases ys <;> rfl
  | cons x xs ih =>
    intro ys h
    cases ys with
    | nil => rfl
    | cons y ys =>
      rw [List.all_cons, Bool.and_eq_true] at h
      rw [List.zipWith_cons_cons, List.all_cons, Bool.and_eq_true]
      exact ⟨slotRoleFree_update x y h.1, ih ys h.2⟩

theorem aggProcess_roleFree (a : Aggregator) (c : PyVal)
    (h : a.choices.all slotRoleFree = true) :
    (aggProcessChunk a c).choices.all slotRoleFree = true := by
  rw [aggProcessChunk]
  split
  · exact h
  · show (List.zipWith aggUpdateSlot _ _ ++ List.drop _ _).all slotRoleFree = true
    have hs0 : (if a.choices.isEmpty then
        (pyAsList (pyDictGetD c kChoices PyVal.none)).map aggInitSlot
        else a.choices).all slotRoleFree = true := by
      split
      · rw [List.all_eq_true]
        intro slot hslot
        obtain ⟨ch, _, hch⟩ := List.mem_map.mp hslot
        rw [← hch]
        exact slotRoleFree_initSlot ch
      · exact h
    rw [List.all_append, Bool.and_eq_true]
    constructor
    · exact zipWith_roleFree _ _ hs0
    · rw [List.all_eq_true]
      intro slot hslot
      exact List.all_eq_true.mp hs0 slot (List.mem_of_mem_drop hslot)

theorem runAgg_roleFree (cs : List PyVal) : ∀ a : Aggregator,
    a.choices.all slotRoleFree = true → (runAgg a cs).choices.all slotRoleFree = true := by
  induction cs with
  | nil => intro a h; exact h
  | cons c cs ih => intro a h; exact ih _ (aggProcess_roleFree a c h)

/-- Claim C10: the aggregator never copies a `role` field from any delta
into its accumulated state, and every choice message of
`get_final_response` has role `"assistant"`. -/
theorem c10_role_never_accumulated (cs : List PyVal) (_hwf : cs.all aggChunkWF = true) :
    accRoleFree cs = true ∧ finalRolesAssistant cs = true := by
  have hrf : (runAgg initAggregator cs).choices.all slotRoleFree = true :=
    runAgg_roleFree cs initAggregator rfl
  constructor
  · rw [accRoleFree]
    rw [List.all_eq_true] at hrf ⊢
    intro slot hslot
    exact hrf slot hslot
  · rw [finalRolesAssistant, aggFinal, get_final_response]
    set A := runAgg initAggregator cs with hA
    by_cases hE : A.choices.isEmpty = true
    · rw [if_pos hE]
    · rw [if_neg hE]
      have hgoal : ((A.choices.map aggFinalizeChoice).all (fun ch =>
          match pyDictGet (pyDictGetD ch kMessage PyVal.none) kRole with
          | some (PyVal.str s) => s == sAssistant
          | _ => false)) = true := by
        rw [List.all_eq_true]
        intro ch hch
        obtain ⟨slot, hslot, hmap⟩ := List.mem_map.mp hch
        rw [← hmap]
        have hfree := List.all_eq_true.mp hrf slot hslot
        rw [slotRoleFree, Bool.not_eq_true'] at hfree
        have hnone : pyDictGet (pyDictGetD slot kDelta (PyVal.dict [])) kRole = Option.none := by
          rw [pyDictHasKey] at hfree
          exact Option.not_isSome_iff_eq_none.mp (by rw [hfree]; exact Bool.false_ne_true)
        show (match pyDictGet (pyDictGetD (aggFinalizeChoice slot) kMessage PyVal.none) kRole with
          | some (PyVal.str s) => s == sAssistant
          | _ => false) = true
        rw [show pyDictGet (pyDictGetD (aggFinalizeChoice slot) kMessage PyVal.none) kRole =
            some ((pyDictGet (pyDictGetD slot kDelta (PyVal.dict [])) kRole).getD
              (PyVal.str sAssistant)) from rfl]
        rw [hnone]
        show (sAssistant == sAssistant) = true
        simp
      exact hgoal

/-- Witness for C10 at a stream whose delta does carry a `role`. -/
theorem c10_role_never_accumulated_witness :
    accRoleFree [c10Chunk] = true ∧ finalRolesAssistant [c10Chunk] = true :=
  c10_role_never_accumulated [c10Chunk] (by decide)

/-! ### Claim C1: supporting lemmas -/

theorem wordChar_toNat_le {c : Char} (h : isWordChar c = true) : c.toNat ≤ 122 := by
  rw [isWordChar, Bool.or_eq_true] at h
  rcases h with h' | h'
  · rw [Char.isAlphanum, Bool.or_eq_true] at h'
    rcases h' with h2 | h2
    · rw [Char.isAlpha, Bool.or_eq_true] at h2
      rcases h2 with h3 | h3
      · rw [Char.isUpper] at h3
        rw [Bool.and_eq_true] at h3
        have := h3.2
        simp only [decide_eq_true_eq] at this
        calc c.toNat ≤ ('Z').toNat := this
          _ ≤ 122 := by decide
      · rw [Char.isLower] at h3
        rw [Bool.and_eq_true] at h3
        have := h3.2
        simp only [decide_eq_true_eq] at this
        calc c.toNat ≤ ('z').toNat := this
          _ ≤ 122 := by decide
    · rw [Char.isDigit] at h2
      rw [Bool.and_eq_true] at h2
      have := h2.2
      simp only [decide_eq_true_eq] at this
      calc c.toNat ≤ ('9').toNat := this
        _ ≤ 122 := by decide
  · have : c = '_' := by simpa using h'
    rw [this]
    decide

theorem small_not_ctrl {c : Char} (h : c.toNat ≤ 122) : isCtrlChar c = false := by
  rw [isCtrlChar]
  have h1 : decide (0xF00 ≤ c.toNat) = false := by
    rw [decide_eq_false_iff_not]
    omega
  have h2 : decide (0x1800 ≤ c.toNat) = false := by
    rw [decide_eq_false_iff_not]
    omega
  simp [h1, h2]

theorem wordChar_not_ctrl {c : Char} (h : isWordChar c = true) : isCtrlChar c = false :=
  small_not_ctrl (wordChar_toNat_le h)

theorem wordChar_toNat_ge {c : Char} (h : isWordChar c = true) : 48 ≤ c.toNat := by
  rw [isWordChar, Bool.or_eq_true] at h
  rcases h with h' | h'
  · rw [Char.isAlphanum, Bool.or_eq_true] at h'
    rcases h' with h2 | h2
    · rw [Char.isAlpha, Bool.or_eq_true] at h2
      rcases h2 with h3 | h3
      · rw [Char.isUpper] at h3
        rw [Bool.and_eq_true] at h3
        have := h3.1
        simp only [decide_eq_true_eq] at this
        calc (48 : Nat) ≤ ('A').toNat := by decide
          _ ≤ c.toNat := this
      · rw [Char.isLower] at h3
        rw [Bool.and_eq_true] at h3
        have := h3.1
        simp only [decide_eq_true_eq] at this
        calc (48 : Nat) ≤ ('a').toNat := by decide
          _ ≤ c.toNat := this
    · rw [Char.isDigit] at h2
      rw [Bool.and_eq_true] at h2
      have := h2.1
      simp only [decide_eq_true_eq] at this
      calc (48 : Nat) ≤ ('0').toNat := by decide
        _ ≤ c.toNat := this
  · have : c = '_' := by simpa using h'
    rw [this]
    decide

theorem wordChar_not_space {c : Char} (h : isWordChar c = true) : pyIsSpace c = false := by
  have h1 := wordChar_toNat_le h
  have h2 := wordChar_toNat_ge h
  by_contra hx
  rw [Bool.not_eq_false] at hx
  rw [pyIsSpace] at hx
  simp only [Bool.or_eq_true, Bool.and_eq_true, decide_eq_true_eq, beq_iff_eq] at hx
  omega

theorem digit_isWordChar {c : Char} (h : c.isDigit = true) : isWordChar c = true := by
  rw [isWordChar, Char.isAlphanum, Char.isAlpha]
  simp [h]

/-- An occurrence of `m` inside `a ++ b` whose first character does not
occur in `a` lies inside `b`. -/
theorem infix_right_of_head_notin {m a b : List Char} {c0 : Char}
    (hm : m.head? = some c0) (hc : c0 ∉ a) (h : m <:+: a ++ b) : m <:+: b := by
  obtain ⟨s, t2, hst⟩ := h
  rw [List.append_assoc] at hst
  rcases List.append_eq_append_iff.mp hst with ⟨a', ha1, ha2⟩ | ⟨c', _, hc2⟩
  · cases a' with
    | nil =>
      rw [List.append_nil] at ha1
      exact ⟨[], t2, by simpa using ha2⟩
    | cons x a'' =>
      exfalso
      cases m with
      | nil => simp at hm
      | cons mh mt =>
        have hmh : mh = c0 := by simpa using hm
        simp only [List.cons_append] at ha2
        have hx : mh = x := ((List.cons.injEq _ _ _ _).mp ha2).1
        have hcx : c0 = x := by rw [← hmh, hx]
        apply hc
        rw [ha1, hcx]
        exact List.mem_append.mpr (Or.inr (List.mem_cons_self x a''))
  · exact ⟨c', t2, by rw [List.append_assoc]; exact hc2.symm⟩

theorem argsConcat_append (l1 l2 : List PyVal) :
    argsConcat (l1 ++ l2) = argsConcat l1 ++ argsConcat l2 := by
  rw [argsConcat, argsConcat, argsConcat, List.map_append, List.flatten_append]

theorem takeWhile_append_cons {p : Char → Bool} (xs : List Char) (y : Char) (ys : List Char)
    (hx : ∀ x ∈ xs, p x = true) (hy : p y = false) :
    (xs ++ y :: ys).takeWhile p = xs := by
  induction xs with
  | nil => simp [List.takeWhile, hy]
  | cons a t ih =>
    rw [List.cons_append, List.takeWhile]
    rw [hx a (List.mem_cons_self a t)]
    simp only
    rw [ih (fun x hxm => hx x (List.mem_cons_of_mem a hxm))]

theorem dropWhile_append_cons {p : Char → Bool} (xs : List Char) (y : Char) (ys : List Char)
    (hx : ∀ x ∈ xs, p x = true) (hy : p y = false) :
    (xs ++ y :: ys).dropWhile p = y :: ys := by
  induction xs with
  | nil => simp [List.dropWhile, hy]
  | cons a t ih =>
    rw [List.cons_append, List.dropWhile]
    rw [hx a (List.mem_cons_self a t)]
    simp only
    exact ih (fun x hxm => hx x (List.mem_cons_of_mem a hxm))

theorem takeWhile_all {p : Char → Bool} (xs : List Char) (hx : ∀ x ∈ xs, p x = true) :
    xs.takeWhile p = xs := List.takeWhile_eq_self_iff.mpr hx

theorem dropWhile_all {p : Char → Bool} (xs : List Char) (hx : ∀ x ∈ xs, p x = true) :
    xs.dropWhile p = [] := by
  induction xs with
  | nil => rfl
  | cons a t ih =>
    rw [List.dropWhile]
    rw [hx a (List.mem_cons_self a t)]
    simp only
    exact ih (fun x hxm => hx x (List.mem_cons_of_mem a hxm))

/-- If the tracker reports completion, some nonempty prefix of the scanned
buffer passes `json.loads`. -/
theorem tpjGo_complete (full : List Char) : ∀ (cs : List Char) (b : ToolCallBuilder) (i : Nat),
    (tpjGo full b cs i).1 = true →
    ∃ n, 0 < n ∧ n ≤ i + cs.length ∧ json_loads_ok (full.take n) = true := by
  intro cs
  induction cs with
  | nil => intro b i h; rw [tpjGo] at h; simp at h
  | cons c rest ih =>
    intro b i h
    simp only [tpjGo] at h
    split at h
    · split at h
      · obtain ⟨n, h1, h2, h3⟩ := ih _ _ h
        exact ⟨n, h1, by simp only [List.length_cons]; omega, h3⟩
      · split at h
        · obtain ⟨n, h1, h2, h3⟩ := ih _ _ h
          exact ⟨n, h1, by simp only [List.length_cons]; omega, h3⟩
        · split at h
          · obtain ⟨n, h1, h2, h3⟩ := ih _ _ h
            exact ⟨n, h1, by simp only [List.length_cons]; omega, h3⟩
          · obtain ⟨n, h1, h2, h3⟩ := ih _ _ h
            exact ⟨n, h1, by simp only [List.length_cons]; omega, h3⟩
    · split at h
      · obtain ⟨n, h1, h2, h3⟩ := ih _ _ h
        exact ⟨n, h1, by simp only [List.length_cons]; omega, h3⟩
      · split at h
        · split at h
          · obtain ⟨n, h1, h2, h3⟩ := ih _ _ h
            exact ⟨n, h1, by simp only [List.length_cons]; omega, h3⟩
          · obtain ⟨n, h1, h2, h3⟩ := ih _ _ h
            exact ⟨n, h1, by simp only [List.length_cons]; omega, h3⟩
        · split at h
          · split at h
            · split at h
              · split at h
                · rename_i hjson
                  exact ⟨i + 1, by omega, by simp only [List.length_cons]; omega, hjson⟩
                · obtain ⟨n, h1, h2, h3⟩ := ih _ _ h
                  exact ⟨n, h1, by simp only [List.length_cons]; omega, h3⟩
              · obtain ⟨n, h1, h2, h3⟩ := ih _ _ h
                exact ⟨n, h1, by simp only [List.length_cons]; omega, h3⟩
            · obtain ⟨n, h1, h2, h3⟩ := ih _ _ h
              exact ⟨n, h1, by simp only [List.length_cons]; omega, h3⟩
          · obtain ⟨n, h1, h2, h3⟩ := ih _ _ h
            exact ⟨n, h1, by simp only [List.length_cons]; omega, h3⟩

theorem try_parse_json_complete {b : ToolCallBuilder} {s : List Char}
    (h : (try_parse_json b s).1 = true) :
    ∃ n, 0 < n ∧ n ≤ s.length ∧ json_loads_ok (s.take n) = true := by
  rw [try_parse_json] at h
  split at h
  · simp at h
  · obtain ⟨n, h1, h2, h3⟩ := tpjGo_complete s s b 0 h
    exact ⟨n, h1, by omega, h3⟩

/-- The tracker walk never changes the text fields of the builder. -/
theorem tpjGo_fields (full : List Char) : ∀ (cs : List Char) (b : ToolCallBuilder) (i : Nat),
    (tpjGo full b cs i).2.2.tool_name = b.tool_name ∧
    (tpjGo full b cs i).2.2.tool_id = b.tool_id ∧
    (tpjGo full b cs i).2.2.arguments_buffer = b.arguments_buffer ∧
    (tpjGo full b cs i).2.2.buffer = b.buffer := by
  intro cs
  induction cs with
  | nil => intro b i; rw [tpjGo]; exact ⟨rfl, rfl, rfl, rfl⟩
  | cons c rest ih =>
    intro b i
    simp only [tpjGo]
    split
    · split
      · exact ih _ _
      · split
        · exact ih _ _
        · split
          · exact ih _ _
          · exact ih _ _
    · split
      · exact ih _ _
      · split
        · split
          · exact ih _ _
          · exact ih _ _
        · split
          · split
            · split
              · split
                · exact ⟨rfl, rfl, rfl, rfl⟩
                · exact ih _ _
              · exact ih _ _
            · exact ih _ _
          · exact ih _ _

theorem try_parse_json_fields (b : ToolCallBuilder) (s : List Char) :
    (try_parse_json b s).2.2.tool_name = b.tool_name ∧
    (try_parse_json b s).2.2.tool_id = b.tool_id ∧
    (try_parse_json b s).2.2.arguments_buffer = b.arguments_buffer := by
  rw [try_parse_json]
  split
  · exact ⟨rfl, rfl, rfl⟩
  · obtain ⟨h1, h2, h3, _⟩ := tpjGo_fields s s b 0
    exact ⟨h1, h2, h3⟩

theorem pyOrEmptyStr_str (s : List Char) : pyOrEmptyStr (PyVal.str s) = s := by
  rw [pyOrEmptyStr]
  split
  · rfl
  · rename_i h
    have : s.isEmpty = true := by
      rw [pyTruthy] at h
      simpa using h
    rw [List.isEmpty_iff] at this
    rw [this]

theorem chunkArgText_mkArg (nm idd seg s : List Char) :
    chunkArgText (mkArgChunk nm idd seg (mkRChunk s)) = seg := rfl

theorem argsConcat_single (c : PyVal) : argsConcat [c] = chunkArgText c := by
  simp [argsConcat]

theorem argsConcat_nil : argsConcat [] = [] := rfl

theorem chunkToolName_start (nm idd s : List Char) :
    chunkToolName (create_tool_call_start_chunk nm idd (mkRChunk s)) = some nm := rfl

theorem chunkCallId_start (nm idd s : List Char) :
    chunkCallId (create_tool_call_start_chunk nm idd (mkRChunk s)) =
      some (toolCallEntryId nm idd) := rfl

theorem c1_emit (nm idd payload B raw os : List Char) (t : Transformer)
    (ht : c1Inv nm idd B t)
    (hpre : (B ++ raw) <+: payload)
    (hM : NoMarker payload)
    (hF : ∀ n, 0 < n → n < payload.length → json_loads_ok (payload.take n) = false) :
    argsConcat (emit_argument_delta t raw (mkRChunk os)).1 = raw ∧
    (c1Inv nm idd (B ++ raw) (emit_argument_delta t raw (mkRChunk os)).2 ∨
      (B ++ raw = payload ∧ (emit_argument_delta t raw (mkRChunk os)).2 = initTransformer)) := by
  obtain ⟨ht1, ht2, ht3, ht4⟩ := ht
  by_cases hraw : raw.isEmpty = true
  · have hr : raw = [] := List.isEmpty_iff.mp hraw
    rw [emit_argument_delta, if_pos hraw]
    subst hr
    exact ⟨rfl, Or.inl ⟨ht1, ht2, ht3, by rw [List.append_nil]; exact ht4⟩⟩
  · have hrawF : raw.isEmpty = false := by
      cases hx : raw.isEmpty
      · rfl
      · exact absurd hx hraw
    have hrawinf : raw <:+: payload := by
      obtain ⟨q, hq⟩ := hpre
      exact ⟨B, q, hq⟩
    have hMraw : NoMarker raw := fun m hm hx => hM m hm (hx.trans hrawinf)
    have hstrip : strip_argument_markers raw = raw := strip_argument_markers_eq_self hMraw
    have hEnd : hasEndMarkerRaw raw = false := by
      rw [hasEndMarkerRaw]
      have h1 : strContains raw mCallEnd = false := by
        rw [← Bool.not_eq_true, strContains_iff]
        exact hMraw mCallEnd (by simp [markerList])
      have h2 : strContains raw mSectionEnd = false := by
        rw [← Bool.not_eq_true, strContains_iff]
        exact hMraw mSectionEnd (by simp [markerList])
      rw [h1, h2]
      rfl
    simp only [emit_argument_delta, hstrip, hEnd, hrawF, Bool.false_eq_true, if_false]
    split
    · rename_i hB
      rw [Bool.and_eq_true] at hB
      have hcomp := hB.1
      rw [ht4] at hcomp
      obtain ⟨n, hn1, hn2, hn3⟩ := try_parse_json_complete hcomp
      obtain ⟨q, hq⟩ := hpre
      have htake : (B ++ raw).take n = payload.take n := by
        rw [← hq, List.take_append_of_le_length hn2]
      rw [htake] at hn3
      have hlenle : (B ++ raw).length ≤ payload.length := by
        have hc := congrArg List.length hq
        rw [List.length_append] at hc
        omega
      have hnge : payload.length ≤ n := by
        by_contra hlt
        rw [Nat.not_le] at hlt
        exact absurd hn3 (by rw [hF n hn1 hlt]; exact Bool.false_ne_true)
      have hlen : (B ++ raw).length = payload.length := by omega
      have heq : B ++ raw = payload := List.IsPrefix.eq_of_length ⟨q, hq⟩ hlen
      refine ⟨?_, Or.inr ⟨heq, rfl⟩⟩
      rw [argsConcat_single, chunkArgText_mkArg]
    · refine ⟨by rw [argsConcat_single, chunkArgText_mkArg], Or.inl ?_⟩
      obtain ⟨hf1, hf2, hf3⟩ := try_parse_json_fields
        { buffer := t.builder.buffer, tool_name := t.builder.tool_name,
          tool_id := t.builder.tool_id,
          arguments_buffer := t.builder.arguments_buffer ++ raw,
          brace_depth := t.builder.brace_depth, in_string := t.builder.in_string,
          string_char := t.builder.string_char, escaped := t.builder.escaped }
        (t.builder.arguments_buffer ++ raw)
      refine ⟨ht1, ?_, ?_, ?_⟩
      · rw [show (⟨t.state,
          (try_parse_json
            { buffer := t.builder.buffer, tool_name := t.builder.tool_name,
              tool_id := t.builder.tool_id,
              arguments_buffer := t.builder.arguments_buffer ++ raw,
              brace_depth := t.builder.brace_depth, in_string := t.builder.in_string,
              string_char := t.builder.string_char, escaped := t.builder.escaped }
            (t.builder.arguments_buffer ++ raw)).2.2, t.pending_chunks⟩ : Transformer).builder =
          (try_parse_json
            { buffer := t.builder.buffer, tool_name := t.builder.tool_name,
              tool_id := t.builder.tool_id,
              arguments_buffer := t.builder.arguments_buffer ++ raw,
              brace_depth := t.builder.brace_depth, in_string := t.builder.in_string,
              string_char := t.builder.string_char, escaped := t.builder.escaped }
            (t.builder.arguments_buffer ++ raw)).2.2 from rfl]
        rw [hf1]
        exact ht2
      · rw [hf2]
        exact ht3
      · rw [hf3, ht4]

theorem c1_run (nm idd payload : List Char)
    (hM : NoMarker payload)
    (hF : ∀ n, 0 < n → n < payload.length → json_loads_ok (payload.take n) = false) :
    ∀ (ps : List (List Char)) (B : List Char) (t : Transformer),
      B ++ ps.flatten = payload →
      (c1Inv nm idd B t ∨ (B = payload ∧ t = initTransformer)) →
      argsConcat (runChunks t (ps.map mkRChunk)).1 = ps.flatten := by
  intro ps
  induction ps with
  | nil => intro B t _ _; rfl
  | cons p ps ih =>
    intro B t hBf hst
    rw [List.map_cons]
    show argsConcat ((process_chunk t (mkRChunk p)).1 ++
      (runChunks (process_chunk t (mkRChunk p)).2 (ps.map mkRChunk)).1) = (p :: ps).flatten
    rcases hst with hInv | ⟨hBp, htinit⟩
    · obtain ⟨ht1, ht2, ht3, ht4⟩ := hInv
      have hvalid : is_valid_chunk (mkRChunk p) = true := rfl
      have hrc : chunkReasoning (mkRChunk p) = PyVal.str p := rfl
      have hcond : (t.state == ParserState.IDLE && !pyTruthy (chunkReasoning (mkRChunk p))) = false := by
        rw [ht1]
        rfl
      have hproc : process_chunk t (mkRChunk p) =
          emit_argument_delta { t with pending_chunks := t.pending_chunks ++ [mkRChunk p] } p
            (mkRChunk p) := by
        rw [process_chunk, hvalid]
        simp only [Bool.not_true, Bool.false_eq_true, if_false]
        rw [if_neg (by simp [hcond])]
        rw [ht1]
        show process_argument_build_state t (mkRChunk p) (chunkReasoning (mkRChunk p)) = _
        rw [process_argument_build_state]
        rw [show pyOrEmptyStr (chunkReasoning (mkRChunk p)) = p from by rw [hrc, pyOrEmptyStr_str]]
        rw [ht1]
      rw [hproc]
      have hpre : (B ++ p) <+: payload := by
        refine ⟨ps.flatten, ?_⟩
        rw [List.append_assoc, ← List.flatten_cons]
        exact hBf
      have hem := c1_emit nm idd payload B p p
        { t with pending_chunks := t.pending_chunks ++ [mkRChunk p] }
        ⟨ht1, ht2, ht3, ht4⟩ hpre hM hF
      obtain ⟨hargs, hstate⟩ := hem
      have hrest := ih (B ++ p)
        (emit_argument_delta { t with pending_chunks := t.pending_chunks ++ [mkRChunk p] } p
          (mkRChunk p)).2
        (by rw [List.flatten_cons] at hBf; rw [← List.append_assoc] at hBf; exact hBf)
        (by
          rcases hstate with h | ⟨h1, h2⟩
          · exact Or.inl h
          · exact Or.inr ⟨h1, h2⟩)
      rw [argsConcat_append, hargs, hrest, List.flatten_cons]
    · subst htinit
      have hflat : (p :: ps).flatten = [] := by
        rw [hBp] at hBf
        have hc := congrArg List.length hBf
        rw [List.length_append] at hc
        exact List.length_eq_zero.mp (by omega)
      rw [List.flatten_cons] at hflat
      obtain ⟨hp0, hps0⟩ := List.append_eq_nil.mp hflat
      subst hp0
      have hstep : process_chunk initTransformer (mkRChunk []) = ([mkRChunk []], initTransformer) := rfl
      rw [hstep]
      have hrest := ih payload initTransformer (by rw [hps0, List.append_nil]) (Or.inr ⟨rfl, rfl⟩)
      rw [argsConcat_append, hrest]
      rw [show argsConcat [mkRChunk []] = [] from rfl]
      rw [List.flatten_cons]

theorem chunkArgText_start (nm idd s : List Char) :
    chunkArgText (create_tool_call_start_chunk nm idd (mkRChunk s)) = [] := rfl

theorem argsConcat_cons (c : PyVal) (l : List PyVal) :
    argsConcat (c :: l) = chunkArgText c ++ argsConcat l := by
  simp [argsConcat]

theorem c1_frag1 (nm idd payload p0 : List Char)
    (hn1 : nm ≠ []) (hn2 : ∀ c ∈ nm, isWordChar c = true)
    (hi1 : idd ≠ []) (hi2 : ∀ c ∈ idd, Char.isDigit c = true)
    (hph : payload.head? = some '{')
    (hpc : ∀ c ∈ payload, pyIsSpace c = false ∧ isCtrlChar c = false)
    (hM : NoMarker payload)
    (hF : ∀ n, 0 < n → n < payload.length → json_loads_ok (payload.take n) = false)
    (hp0 : p0 <+: payload) :
    ∃ tail,
      (process_chunk initTransformer (mkRChunk (headerText nm idd ++ p0))).1 =
        create_tool_call_start_chunk nm idd (mkRChunk (headerText nm idd ++ p0)) :: tail ∧
      argsConcat (process_chunk initTransformer (mkRChunk (headerText nm idd ++ p0))).1 = p0 ∧
      (c1Inv nm idd p0 (process_chunk initTransformer (mkRChunk (headerText nm idd ++ p0))).2 ∨
        (p0 = payload ∧
          (process_chunk initTransformer (mkRChunk (headerText nm idd ++ p0))).2 =
            initTransformer)) := by
  have hmemp0 : ∀ c ∈ p0, c ∈ payload := fun c hc => hp0.subset hc
  have hnmE : nm.isEmpty = false := by
    cases nm with
    | nil => exact absurd rfl hn1
    | cons a l => rfl
  have hidE : idd.isEmpty = false := by
    cases idd with
    | nil => exact absurd rfl hi1
    | cons a l => rfl
  have hwordid : ∀ c ∈ idd, isWordChar c = true := fun c hc => digit_isWordChar (hi2 c hc)
  have hmemHdr : ∀ c ∈ headerText nm idd, c ∈ functionsDot ∨ c ∈ nm ∨ c = ':' ∨ c ∈ idd := by
    intro c hc
    rw [headerText] at hc
    simp only [List.mem_append, List.mem_cons] at hc
    tauto
  have hltHdr : '<' ∉ headerText nm idd := by
    intro hmem
    rcases hmemHdr '<' hmem with h | h | h | h
    · exact absurd h (by decide)
    · have := hn2 _ h
      exact absurd this (by decide)
    · cases h
    · have := hwordid _ h
      exact absurd this (by decide)
  have hMS : NoMarker (headerText nm idd ++ p0) := by
    intro m hm hinf
    have hhead : m.head? = some '<' := by
      rw [markerList] at hm
      simp only [List.mem_cons, List.not_mem_nil, or_false] at hm
      rcases hm with h | h | h | h | h <;> rw [h] <;> rfl
    have hinp0 : m <:+: p0 := infix_right_of_head_notin hhead hltHdr hinf
    obtain ⟨q, hq⟩ := hp0
    exact hM m hm (hinp0.trans ⟨[], q, by simpa using hq⟩)
  have hctrlS : ∀ c ∈ headerText nm idd ++ p0, isCtrlChar c = false := by
    intro c hc
    rcases List.mem_append.mp hc with hc | hc
    · rcases hmemHdr c hc with h | h | h | h
      · have := List.all_eq_true.mp
          (show functionsDot.all (fun c => !isCtrlChar c) = true by decide) c h
        simpa using this
      · exact wordChar_not_ctrl (hn2 c h)
      · rw [h]; decide
      · exact wordChar_not_ctrl (hwordid c h)
    · exact (hpc c (hmemp0 c hc)).2
  have hheadS : (headerText nm idd ++ p0).head? = some 'f' := rfl
  have hlastS : ∀ x, (headerText nm idd ++ p0).getLast? = some x → pyIsSpace x = false := by
    intro x hx
    rw [List.getLast?_append] at hx
    cases hgp : p0.getLast? with
    | some y =>
      rw [hgp] at hx
      simp only [Option.or] at hx
      have hxy : x = y := by
        injection hx with h1
        exact h1.symm
      rw [hxy]
      exact (hpc y (hmemp0 y (List.mem_of_mem_getLast? hgp))).1
    | none =>
      rw [hgp] at hx
      simp only [Option.or] at hx
      rw [headerText] at hx
      rw [List.getLast?_append, List.getLast?_append] at hx
      cases hid : idd with
      | nil => exact absurd hid hi1
      | cons i0 irest =>
        have hgl : (':' :: idd).getLast? = idd.getLast? := by
          rw [hid]
          exact List.getLast?_cons_cons
        rw [hgl] at hx
        cases hgi : idd.getLast? with
        | some z =>
          rw [hgi] at hx
          simp only [Option.or] at hx
          have hxz : x = z := by
            injection hx with h1
            exact h1.symm
          rw [hxz]
          exact wordChar_not_space (hwordid z (List.mem_of_mem_getLast? hgi))
        | none =>
          rw [hid] at hgi
          rw [List.getLast?_eq_none_iff] at hgi
          cases hgi
  have hstripS : pyStrip (headerText nm idd ++ p0) = headerText nm idd ++ p0 :=
    pyStrip_eq_self (by
      intro x hx
      rw [hheadS] at hx
      injection hx with h1
      rw [← h1]
      decide) hlastS
  have hsmadS : strip_markers_and_detect (headerText nm idd ++ p0) true =
      (headerText nm idd ++ p0, false) := by
    rw [smad_clean hctrlS hMS, hstripS]
  have hpref : functionsDot.isPrefixOf (headerText nm idd ++ p0) = true := by
    rw [List.isPrefixOf_iff_prefix]
    exact ⟨(nm ++ ':' :: idd) ++ p0, by rw [headerText]; simp [List.append_assoc]⟩
  have hcontS : strContains (headerText nm idd ++ p0) functionsDot = true :=
    (strContains_iff _ _).mpr (List.isPrefixOf_iff_prefix.mp hpref).isInfix
  have hfindS : pyFind (headerText nm idd ++ p0) functionsDot = some 0 := by
    rw [pyFind, pyFindGo.eq_def]
    exact if_pos hpref
  have hp0head : p0 = [] ∨ ∃ pr, p0 = '{' :: pr := by
    cases hc : p0 with
    | nil => exact Or.inl rfl
    | cons c pr =>
      obtain ⟨q, hq⟩ := hp0
      rw [hc] at hq
      rw [← hq] at hph
      have hcc : some c = some '{' := hph
      exact Or.inr ⟨pr, by rw [Option.some.inj hcc]⟩
  have hdrop : (headerText nm idd ++ p0).drop functionsDot.length = nm ++ ':' :: (idd ++ p0) := by
    rw [headerText, List.append_assoc, List.append_assoc]
    rw [List.drop_left]
    rw [List.cons_append]
  have htw1 : (nm ++ ':' :: (idd ++ p0)).takeWhile isWordChar = nm :=
    takeWhile_append_cons nm ':' (idd ++ p0) hn2 (by decide)
  have hdw1 : (nm ++ ':' :: (idd ++ p0)).dropWhile isWordChar = ':' :: (idd ++ p0) :=
    dropWhile_append_cons nm ':' (idd ++ p0) hn2 (by decide)
  have htw2 : (idd ++ p0).takeWhile Char.isDigit = idd := by
    rcases hp0head with h0 | ⟨pr, h0⟩
    · rw [h0, List.append_nil]
      exact takeWhile_all idd hi2
    · rw [h0]
      exact takeWhile_append_cons idd '{' pr hi2 (by decide)
  have hdw2 : (idd ++ p0).dropWhile Char.isDigit = p0 := by
    rcases hp0head with h0 | ⟨pr, h0⟩
    · rw [h0, List.append_nil, dropWhile_all idd hi2]
    · rw [h0]
      exact dropWhile_append_cons idd '{' pr hi2 (by decide)
  have hmatch : functionMatchAt (headerText nm idd ++ p0) = some (nm, idd, p0) := by
    simp only [functionMatchAt, hpref, if_true, hdrop, htw1, hdw1, htw2, hdw2, hnmE, hidE,
      Bool.false_eq_true, if_false]
  have hsearch : function_search (headerText nm idd ++ p0) = some (nm, idd, p0) := by
    rw [show headerText nm idd ++ p0 =
      'f' :: ((("unctions.").toList ++ (nm ++ ':' :: idd)) ++ p0) from rfl]
    rw [function_search]
    rw [show ('f' :: ((("unctions.").toList ++ (nm ++ ':' :: idd)) ++ p0)) =
      headerText nm idd ++ p0 from rfl]
    rw [hmatch]
  have hvalid : is_valid_chunk (mkRChunk (headerText nm idd ++ p0)) = true := rfl
  have htruthy : pyTruthy (chunkReasoning (mkRChunk (headerText nm idd ++ p0))) = true := rfl
  have hlooks : looks_like_tool_start (headerText nm idd ++ p0) = true := by
    rw [looks_like_tool_start, hcontS]
    rfl
  have hcondP : (initTransformer.state == ParserState.IDLE &&
      !pyTruthy (chunkReasoning (mkRChunk (headerText nm idd ++ p0)))) = false := by
    rw [htruthy]
    rfl
  have hproc : process_chunk initTransformer (mkRChunk (headerText nm idd ++ p0)) =
      try_finish_tool_header (c1T1 nm idd p0) (mkRChunk (headerText nm idd ++ p0)) := by
    rw [process_chunk, hvalid]
    simp only [Bool.not_true, Bool.false_eq_true, if_false]
    rw [if_neg (by simp [hcondP])]
    show process_idle_state initTransformer (mkRChunk (headerText nm idd ++ p0))
      (chunkReasoning (mkRChunk (headerText nm idd ++ p0))) = _
    rw [process_idle_state]
    rw [if_neg (by rw [htruthy]; decide)]
    simp only [show pyValToStr (chunkReasoning (mkRChunk (headerText nm idd ++ p0))) =
        headerText nm idd ++ p0 from rfl,
      hsmadS, hlooks, hfindS, Bool.not_false, Bool.not_true, Bool.false_and, Bool.and_false,
      Bool.false_eq_true, if_false, List.take_zero, List.drop_zero,
      show pyStrip ([] : List Char) = [] from rfl, List.isEmpty_nil, List.nil_append]
    rfl
  have hbb : (c1T1 nm idd p0).builder.buffer = headerText nm idd ++ p0 := rfl
  rw [hproc]
  rcases hp0head with h0 | ⟨pr, h0⟩
  · subst h0
    have hfin0 : try_finish_tool_header (c1T1 nm idd []) (mkRChunk (headerText nm idd ++ [])) =
        ([create_tool_call_start_chunk nm idd (mkRChunk (headerText nm idd ++ []))],
         c1T2 nm idd []) := by
      rw [try_finish_tool_header, hbb, hsearch]
      rfl
    rw [hfin0]
    refine ⟨[], rfl, ?_, Or.inl ⟨rfl, rfl, rfl, rfl⟩⟩
    rw [argsConcat_single, chunkArgText_start]
  · subst h0
    obtain ⟨hargs, hstate⟩ := c1_emit nm idd payload [] ('{' :: pr)
      (headerText nm idd ++ '{' :: pr) (c1T2 nm idd ('{' :: pr)) ⟨rfl, rfl, rfl, rfl⟩
      (by rw [List.nil_append]; exact hp0) hM hF
    have hfin : try_finish_tool_header (c1T1 nm idd ('{' :: pr))
        (mkRChunk (headerText nm idd ++ '{' :: pr)) =
        (create_tool_call_start_chunk nm idd (mkRChunk (headerText nm idd ++ '{' :: pr)) ::
          (emit_argument_delta (c1T2 nm idd ('{' :: pr)) ('{' :: pr)
            (mkRChunk (headerText nm idd ++ '{' :: pr))).1,
         (emit_argument_delta (c1T2 nm idd ('{' :: pr)) ('{' :: pr)
            (mkRChunk (headerText nm idd ++ '{' :: pr))).2) := by
      rw [try_finish_tool_header, hbb, hsearch]
      rfl
    rw [hfin]
    refine ⟨_, rfl, ?_, ?_⟩
    · rw [argsConcat_cons, chunkArgText_start, List.nil_append]
      exact hargs
    · rcases hstate with h | ⟨h1, h2⟩
      · rw [List.nil_append] at h
        exact Or.inl h
      · rw [List.nil_append] at h1
        exact Or.inr ⟨h1, h2⟩

theorem noMarker_of_scan (s : List Char)
    (h : markerList.all (fun m => !strContains s m) = true) : NoMarker s := by
  intro m hm hinf
  have hx := List.all_eq_true.mp h m hm
  rw [(strContains_iff s m).mpr hinf] at hx
  exact absurd hx (by decide)

theorem c1_runSplit (nm idd payload p0 : List Char) (ps : List (List Char))
    (hn1 : nm ≠ []) (hn2 : ∀ c ∈ nm, isWordChar c = true)
    (hi1 : idd ≠ []) (hi2 : ∀ c ∈ idd, Char.isDigit c = true)
    (hph : payload.head? = some '{')
    (hpc : ∀ c ∈ payload, pyIsSpace c = false ∧ isCtrlChar c = false)
    (hM : NoMarker payload)
    (hF : ∀ n, 0 < n → n < payload.length → json_loads_ok (payload.take n) = false)
    (hsplit : p0 ++ ps.flatten = payload) :
    argsConcat (runChunks initTransformer
      (mkRChunk (headerText nm idd ++ p0) :: ps.map mkRChunk)).1 = payload ∧
    firstName (runChunks initTransformer
      (mkRChunk (headerText nm idd ++ p0) :: ps.map mkRChunk)).1 = some nm ∧
    firstCallId (runChunks initTransformer
      (mkRChunk (headerText nm idd ++ p0) :: ps.map mkRChunk)).1 =
      some (toolCallEntryId nm idd) := by
  have hp0 : p0 <+: payload := ⟨ps.flatten, hsplit⟩
  obtain ⟨tail, h1, h2, h3⟩ := c1_frag1 nm idd payload p0 hn1 hn2 hi1 hi2 hph hpc hM hF hp0
  have hrun : runChunks initTransformer
      (mkRChunk (headerText nm idd ++ p0) :: ps.map mkRChunk) =
      ((process_chunk initTransformer (mkRChunk (headerText nm idd ++ p0))).1 ++
        (runChunks (process_chunk initTransformer (mkRChunk (headerText nm idd ++ p0))).2
          (ps.map mkRChunk)).1,
       (runChunks (process_chunk initTransformer (mkRChunk (headerText nm idd ++ p0))).2
          (ps.map mkRChunk)).2) := rfl
  have hrest := c1_run nm idd payload hM hF ps p0
    (process_chunk initTransformer (mkRChunk (headerText nm idd ++ p0))).2 hsplit h3
  rw [hrun]
  refine ⟨?_, ?_, ?_⟩
  · show argsConcat ((process_chunk initTransformer (mkRChunk (headerText nm idd ++ p0))).1 ++
      (runChunks (process_chunk initTransformer (mkRChunk (headerText nm idd ++ p0))).2
        (ps.map mkRChunk)).1) = payload
    rw [argsConcat_append, h2, hrest, hsplit]
  · show firstName ((process_chunk initTransformer (mkRChunk (headerText nm idd ++ p0))).1 ++
      (runChunks (process_chunk initTransformer (mkRChunk (headerText nm idd ++ p0))).2
        (ps.map mkRChunk)).1) = some nm
    rw [h1, List.cons_append, firstName, List.findSome?_cons, chunkToolName_start]
  · show firstCallId ((process_chunk initTransformer (mkRChunk (headerText nm idd ++ p0))).1 ++
      (runChunks (process_chunk initTransformer (mkRChunk (headerText nm idd ++ p0))).2
        (ps.map mkRChunk)).1) = some (toolCallEntryId nm idd)
    rw [h1, List.cons_append, firstCallId, List.findSome?_cons, chunkCallId_start]

/-- Claim C1, counterexample: splitting the marker+header+arguments text
`c1TextFull` in the middle of the `<|tool_call_argument_begin|>` marker token
(fragments `c1TextCutA`, `c1TextCutB`) reconstructs the same tool name but a
different concatenated arguments string than feeding the whole text in one
chunk: the two halves of the cut marker leak into the arguments. -/
theorem c1_split_invariance_cex :
    c1TextCutA ++ c1TextCutB = c1TextFull ∧
    firstName (runChunks initTransformer [mkRChunk c1TextFull]).1 =
      some (("read_file").toList) ∧
    firstName (runChunks initTransformer [mkRChunk c1TextCutA, mkRChunk c1TextCutB]).1 =
      some (("read_file").toList) ∧
    argsConcat (runChunks initTransformer [mkRChunk c1TextFull]).1 =
      ("\x7b\"path\":\"a\"\x7d").toList ∧
    argsConcat (runChunks initTransformer [mkRChunk c1TextCutA, mkRChunk c1TextCutB]).1 =
      ("<|tool_call_argument_begin|>\x7b\"path\":\"a\"\x7d").toList ∧
    argsConcat (runChunks initTransformer [mkRChunk c1TextCutA, mkRChunk c1TextCutB]).1 ≠
      argsConcat (runChunks initTransformer [mkRChunk c1TextFull]).1 :=
  ⟨rfl, rfl, rfl, rfl, rfl, by decide⟩

/-- Claim C1, amended: split invariance holds for header+arguments texts
whose JSON payload contains no marker token, no whitespace and no control
character, and no proper non-empty prefix of which already parses as JSON,
for every partition whose first fragment carries the whole
`functions.<name>:<id>` header (the cut points inside the payload are
arbitrary: mid-JSON-string and mid-escape cuts included).  Feeding
`headerText ++ p0, ps...` yields the same concatenated arguments, the same
first tool name and the same first tool-call id as feeding the entire text
in one chunk. -/
theorem c1_split_invariance_amended (nm idd payload p0 : List Char) (ps : List (List Char))
    (hn1 : nm ≠ []) (hn2b : nm.all isWordChar = true)
    (hi1 : idd ≠ []) (hi2b : idd.all Char.isDigit = true)
    (hph : payload.head? = some '{')
    (hpcb : payload.all (fun c => !pyIsSpace c && !isCtrlChar c) = true)
    (hMb : markerList.all (fun m => !strContains payload m) = true)
    (hFb : (List.range payload.length).all
      (fun n => n == 0 || !json_loads_ok (payload.take n)) = true)
    (hsplit : p0 ++ ps.flatten = payload) :
    argsConcat (runChunks initTransformer
        (mkRChunk (headerText nm idd ++ p0) :: ps.map mkRChunk)).1 =
      argsConcat (runChunks initTransformer [mkRChunk (headerText nm idd ++ payload)]).1 ∧
    firstName (runChunks initTransformer
        (mkRChunk (headerText nm idd ++ p0) :: ps.map mkRChunk)).1 =
      firstName (runChunks initTransformer [mkRChunk (headerText nm idd ++ payload)]).1 ∧
    firstCallId (runChunks initTransformer
        (mkRChunk (headerText nm idd ++ p0) :: ps.map mkRChunk)).1 =
      firstCallId (runChunks initTransformer [mkRChunk (headerText nm idd ++ payload)]).1 := by
  have hn2 : ∀ c ∈ nm, isWordChar c = true := fun c hc => List.all_eq_true.mp hn2b c hc
  have hi2 : ∀ c ∈ idd, Char.isDigit c = true := fun c hc => List.all_eq_true.mp hi2b c hc
  have hpc : ∀ c ∈ payload, pyIsSpace c = false ∧ isCtrlChar c = false := by
    intro c hc
    have hx := List.all_eq_true.mp hpcb c hc
    rw [Bool.and_eq_true] at hx
    exact ⟨by simpa using hx.1, by simpa using hx.2⟩
  have hM : NoMarker payload := noMarker_of_scan payload hMb
  have hF : ∀ n, 0 < n → n < payload.length → json_loads_ok (payload.take n) = false := by
    intro n h1 h2
    have hx := List.all_eq_true.mp hFb n (List.mem_range.mpr h2)
    rw [Bool.or_eq_true] at hx
    rcases hx with hx | hx
    · have hn0 : n = 0 := by simpa using hx
      omega
    · simpa using hx
  obtain ⟨a1, b1, d1⟩ :=
    c1_runSplit nm idd payload p0 ps hn1 hn2 hi1 hi2 hph hpc hM hF hsplit
  obtain ⟨a2, b2, d2⟩ :=
    c1_runSplit nm idd payload payload [] hn1 hn2 hi1 hi2 hph hpc hM hF (by simp)
  simp only [List.map_nil] at a2 b2 d2
  exact ⟨a1.trans a2.symm, b1.trans b2.symm, d1.trans d2.symm⟩

/-- Witness for the amended claim C1 theorem at `functions.ping:7` with
payload split as the two fragments of the mid-string cut of the JSON. -/
theorem c1_split_invariance_amended_witness :
    argsConcat (runChunks initTransformer
        (mkRChunk (headerText (("ping").toList) (("7").toList) ++ ("\x7b\"a\"").toList) ::
          [(":1\x7d").toList].map mkRChunk)).1 =
      argsConcat (runChunks initTransformer
        [mkRChunk (headerText (("ping").toList) (("7").toList) ++
          ("\x7b\"a\":1\x7d").toList)]).1 ∧
    firstName (runChunks initTransformer
        (mkRChunk (headerText (("ping").toList) (("7").toList) ++ ("\x7b\"a\"").toList) ::
          [(":1\x7d").toList].map mkRChunk)).1 =
      firstName (runChunks initTransformer
        [mkRChunk (headerText (("ping").toList) (("7").toList) ++
          ("\x7b\"a\":1\x7d").toList)]).1 ∧
    firstCallId (runChunks initTransformer
        (mkRChunk (headerText (("ping").toList) (("7").toList) ++ ("\x7b\"a\"").toList) ::
          [(":1\x7d").toList].map mkRChunk)).1 =
      firstCallId (runChunks initTransformer
        [mkRChunk (headerText (("ping").toList) (("7").toList) ++
          ("\x7b\"a\":1\x7d").toList)]).1 :=
  c1_split_invariance_amended (("ping").toList) (("7").toList)
    (("\x7b\"a\":1\x7d").toList) (("\x7b\"a\"").toList) [(":1\x7d").toList]
    (by decide) (by decide) (by decide) (by decide) rfl (by decide) (by decide) (by decide) rfl
